import Mathlib

/-!
Verification development for the scroll_rack card-database core
(src/shared/card-db.js). JavaScript strings are modelled as Lean `String`
values manipulated through explicit character lists, JS numbers used as
counters, ids and timestamps as `Nat`, and absent (`undefined`/`null`)
fields as `Option`. Each IndexedDB object store is modelled as a Lean list
of records in index-iteration order; `put`/`delete` by primary key become
key-directed list updates. Helper modules that the repository imports but
whose sources are not part of the snapshot (search-utils.js,
card-name-utils.js) are modelled from the specification and marked as such.
-/

namespace ScrollRack

/-- The characters the JS string trim strips: the ECMAScript WhiteSpace
set (tab, vertical tab, form feed, space, no-break space, zero-width
no-break space, the Unicode space separators) together with the
LineTerminator set (line feed, carriage return, line separator, paragraph
separator). -/
def jsWhitespaceChars : List Char :=
  ['\t', '\n', '\x0b', '\x0c', '\r', ' ', '\u00a0', '\u1680', '\u2000', '\u2001',
   '\u2002', '\u2003', '\u2004', '\u2005', '\u2006', '\u2007', '\u2008', '\u2009',
   '\u200a', '\u2028', '\u2029', '\u202f', '\u205f', '\u3000', '\ufeff']

/-- Whitespace test used to model the JS string trim operations. -/
def jsIsWhitespace (c : Char) : Bool :=
  jsWhitespaceChars.contains c

/-- The ECMAScript LineTerminator characters, which the regex dot does
not match when the s flag is absent. -/
def isLineTerminator (c : Char) : Bool :=
  c = '\n' || c = '\r' || c = '\u2028' || c = '\u2029'

/-- Model of the JS trim on a character list: drop whitespace from both ends. -/
def jsTrimList (l : List Char) : List Char :=
  ((l.dropWhile jsIsWhitespace).reverse.dropWhile jsIsWhitespace).reverse

/-- Model of the JS trim on strings. -/
def jsTrim (s : String) : String :=
  String.mk (jsTrimList s.toList)

/-- ASCII lower-casing of one character (models JS toLowerCase on ASCII data). -/
def jsToLowerChar (c : Char) : Char :=
  if 'A' ≤ c && c ≤ 'Z' then Char.ofNat (c.toNat + 32) else c

/-- ASCII lower-casing of a string. -/
def jsToLower (s : String) : String :=
  String.mk (s.toList.map jsToLowerChar)

/-- ASCII upper-casing of one character (models JS toUpperCase on ASCII data). -/
def jsToUpperChar (c : Char) : Char :=
  if 'a' ≤ c && c ≤ 'z' then Char.ofNat (c.toNat - 32) else c

/-- ASCII upper-casing of a string. -/
def jsToUpper (s : String) : String :=
  String.mk (s.toList.map jsToUpperChar)

/-- Decimal digit test, the regex class backslash-d restricted to ASCII. -/
def isDigitChar (c : Char) : Bool :=
  '0' ≤ c && c ≤ '9'

/-- Numeric value of a decimal digit character. -/
def digitVal (c : Char) : Nat :=
  c.toNat - 48

/-- Value of a most-significant-first decimal digit string, as computed by
JS Number on an all-digit string. -/
def digitsToNat (l : List Char) : Nat :=
  l.foldl (fun a c => a * 10 + digitVal c) 0

/-- Character for a decimal digit value below ten. -/
def digitChar (d : Nat) : Char :=
  Char.ofNat (48 + d)

/-- Fuel-driven little-endian decimal digit expansion; with fuel at least n
this produces the digits of n, least significant first (empty for zero). -/
def natDigitsRevCore : Nat → Nat → List Char
  | _, 0 => []
  | 0, _ + 1 => []
  | fuel + 1, n + 1 => digitChar ((n + 1) % 10) :: natDigitsRevCore fuel ((n + 1) / 10)

/-- Model of the JS decimal rendering String(n) of a nonnegative integer. -/
def jsStringOfNat (n : Nat) : String :=
  if n = 0 then "0" else String.mk (natDigitsRevCore n n).reverse

/-- Substring containment, modelling the JS String.includes test. -/
def jsIncludes (s sub : String) : Bool :=
  decide (sub.toList <:+: s.toList)

/-- Insert an element into a list sorted by the given comparison, keeping
earlier-inserted equal elements before it (stable insertion). -/
def insertSorted (le : α → α → Bool) (a : α) : List α → List α
  | [] => [a]
  | b :: l => if le a b then a :: b :: l else b :: insertSorted le a l

/-- Stable insertion sort by a boolean comparison; models the JS
Array.prototype.sort with a numeric comparator. -/
def sortByBool (le : α → α → Bool) (l : List α) : List α :=
  l.foldr (insertSorted le) []

/-- Lexicographic strict order on character lists, by character code, as
JS compares strings and as IndexedDB orders string keys. -/
def listCharLt : List Char → List Char → Bool
  | [], [] => false
  | [], _ :: _ => true
  | _ :: _, [] => false
  | a :: as, b :: bs => if a < b then true else if b < a then false else listCharLt as bs

/-- Strict string order by character code. -/
def jsStringLt (a b : String) : Bool :=
  listCharLt a.toList b.toList

/-- Lazy match of the trimmed note against the pattern of the source regex
(one or more dot-matched characters, lazily, then the letter p, then one
or more digits, anchored at both ends): scanning left to right, succeed at
the first letter p whose preceding text is nonempty and free of line
terminators - the regex dot, without the s flag, matches no line
terminator - and whose following text is a nonempty all-digit run
extending to the end. The accumulator holds the characters consumed so
far, in reverse; once a line terminator has been consumed no later
position can succeed, exactly as the source regex fails to match. -/
def matchFrom (acc : List Char) : List Char → Option (List Char × List Char)
  | [] => none
  | c :: rest =>
    if c = 'p' && !acc.isEmpty && acc.all (fun x => !isLineTerminator x) &&
        !rest.isEmpty && rest.all isDigitChar then
      some (acc.reverse, rest)
    else
      matchFrom (c :: acc) rest

/-- Embedding of parseNoteLocation (card-db.js lines 231 to 236): trim the
note, match it against the anchored tag-p-digits regex, and return the tag
together with the numeric value of the digits; empty or non-matching notes
give the pair of none and none. -/
def parseNoteLocation (note : String) : Option String × Option Nat :=
  if note = "" then (none, none)
  else
    match matchFrom [] (jsTrimList note.toList) with
    | none => (none, none)
    | some (tag, digits) => (some (String.mk tag), some (digitsToNat digits))

/-- Split a character list at every separator character, keeping empty
groups (models the JS String.split with a one-character separator). -/
def splitKeepEmpty (sep : Char) : List Char → List Char → List (List Char)
  | [], acc => [acc.reverse]
  | c :: rest, acc =>
    if c = sep then acc.reverse :: splitKeepEmpty sep rest []
    else splitKeepEmpty sep rest (c :: acc)

/-- Split a character list on a separator class, dropping empty groups. -/
def splitDropEmpty (sep : Char → Bool) : List Char → List Char → List (List Char)
  | [], acc => if acc.isEmpty then [] else [acc.reverse]
  | c :: rest, acc =>
    if sep c then
      if acc.isEmpty then splitDropEmpty sep rest []
      else acc.reverse :: splitDropEmpty sep rest []
    else splitDropEmpty sep rest (c :: acc)

/-- Uppercase ASCII letter test. -/
def isUpperAlpha (c : Char) : Bool :=
  'A' ≤ c && c ≤ 'Z'

/-- Modelled from the spec (the source file search-utils.js is not part of
the snapshot): extractTokens splits a name on whitespace, hyphens and
en/em-dashes, lowercases the pieces and drops stop words, preserving order. -/
def extractTokens (name : String) : List String :=
  let isSep : Char → Bool := fun c => jsIsWhitespace c || c = '-' || c = '–' || c = '—'
  let stops : List String := ["a", "an", "the", "of", "and", "for", "to", "in"]
  ((splitDropEmpty isSep name.toList []).map
      (fun w => String.mk (w.map jsToLowerChar))).filter (fun w => !stops.contains w)

/-- Modelled from the spec: generateInitials concatenates the first
character of each token of the name. -/
def generateInitials (name : String) : String :=
  String.mk ((extractTokens name).filterMap (fun t => t.toList.head?))

/-- Modelled from the spec: generateProgressiveInitials lists every
non-empty prefix of the initials string, shortest first. -/
def generateProgressiveInitials (name : String) : List String :=
  let l := (generateInitials name).toList
  (List.range l.length).map (fun i => String.mk (l.take (i + 1)))

/-- Modelled from the spec: normalizeForSearch lowercases, deletes
apostrophes, replaces every other character outside lowercase letters,
digits, hyphen and space with a space, and trims the ends. -/
def normalizeForSearch (name : String) : String :=
  let keep : Char → Bool := fun c =>
    ('a' ≤ c && c ≤ 'z') || ('0' ≤ c && c ≤ '9') || c = '-' || c = ' '
  String.mk (jsTrimList
    (((name.toList.map jsToLowerChar).filter (fun c => c ≠ '\'')).map
      (fun c => if keep c then c else ' ')))

/-- Contents of every parenthetical group of a raw name, in order. The
boolean records whether the scan is currently inside a group. -/
def parenGroupsGo : List Char → Bool → List Char → List (List Char)
  | [], _, _ => []
  | c :: rest, false, _ =>
    if c = '(' then parenGroupsGo rest true [] else parenGroupsGo rest false []
  | c :: rest, true, acc =>
    if c = ')' then acc.reverse :: parenGroupsGo rest false []
    else parenGroupsGo rest true (c :: acc)

/-- Recognized decorative style keywords for trailing parentheticals.
Modelled from the spec's open-ended list. -/
def styleKeywords : List String :=
  ["Borderless", "Extended Art", "Showcase", "Foil Etched", "Retro Frame",
   "Surge Foil", "Galaxy Foil", "Halo Foil", "Etched", "Full Art", "Anime"]

/-- Is the content of a parenthetical a pure collector number or a
fraction of two numbers. -/
def isNumericParen (l : List Char) : Bool :=
  (!l.isEmpty && l.all isDigitChar) ||
    (match splitKeepEmpty '/' l [] with
     | [a, b] => !a.isEmpty && a.all isDigitChar && !b.isEmpty && b.all isDigitChar
     | _ => false)

/-- Is a trailing parenthetical content a recognized decoration. -/
def isRecognizedParen (l : List Char) : Bool :=
  styleKeywords.contains (String.mk l) || isNumericParen l

/-- Strip one trailing recognized parenthetical group from a trimmed
character list, if present; none when nothing strippable remains. -/
def stripOneTrailingParen (l : List Char) : Option (List Char) :=
  match l.reverse with
  | ')' :: revRest =>
    let contentRev := revRest.takeWhile (fun c => c ≠ '(')
    match revRest.dropWhile (fun c => c ≠ '(') with
    | '(' :: beforeRev =>
      if isRecognizedParen contentRev.reverse then some (jsTrimList beforeRev.reverse)
      else none
    | _ => none
  | _ => none

/-- Fuel-driven iteration of trailing-parenthetical stripping. -/
def stripTrailingParens : Nat → List Char → List Char
  | 0, l => l
  | fuel + 1, l =>
    match stripOneTrailingParen l with
    | some l' => stripTrailingParens fuel l'
    | none => l

/-- Drop a given literal suffix from a character list when present. -/
def dropSuffixIfPresent (suffix : List Char) (l : List Char) : List Char :=
  if suffix.isSuffixOf l then l.take (l.length - suffix.length) else l

/-- Modelled from the spec (the source file card-name-utils.js is not part
of the snapshot): normalizeCardName takes the front face before a
double-face separator, rewrites an Emblem prefix, iteratively strips
trailing recognized parentheticals, strips a trailing Token suffix, and
trims. -/
def normalizeCardName (raw : String) : String :=
  let l0 := raw.toList
  let front :=
    match List.findIdx? (fun i => ['/', '/'].isPrefixOf (l0.drop i)) (List.range l0.length) with
    | some i => jsTrimList (l0.take i)
    | none => jsTrimList l0
  let emblemed :=
    if ("Emblem - ".toList).isPrefixOf front then
      front.drop "Emblem - ".length ++ " Emblem".toList
    else front
  let stripped := stripTrailingParens emblemed.length (jsTrimList emblemed)
  String.mk (jsTrimList (dropSuffixIfPresent " Token".toList stripped))

/-- Modelled from the spec: extractVariantTags collects every
non-numeric parenthetical content verbatim as a tag, adds an embedded
Neon ink-style marker found in the plain text, and reports whether any tag
mentions foil, case-insensitively. -/
def extractVariantTags (raw : String) : List String × Bool :=
  let parenTags := ((parenGroupsGo raw.toList false []).filter
      (fun g => !isNumericParen g)).map String.mk
  let words := splitDropEmpty jsIsWhitespace raw.toList []
  let neonTags :=
    match List.findIdx? (fun w => String.mk w = "Neon") (List.range words.length |>.filterMap
        (fun i => words[i]?)) with
    | some i =>
      match words[i]?, words[i+1]? with
      | some w, some w' => [String.mk (w ++ ' ' :: w')]
      | _, _ => []
    | none => []
  let tags := parenTags ++ neonTags
  (tags, tags.any (fun t => jsIncludes (jsToLower t) "foil"))

/-- Metadata stored for one cached set (sets object store). -/
structure SetEntry where
  set_code : String
  set_name : String
  card_count : Nat
  cached_at : Nat
  active : Bool
deriving DecidableEq

/-- Raw card object from the catalog API, with the fields that
toCardRecord reads. -/
structure RawCard where
  emid : Nat
  name : String
  collectors_number : String
  rarity : String
  main_type : String
  image : String
  image_cropped : String
deriving DecidableEq

/-- Stored card record (cards object store). The derived search fields
added by schema version 2 are optional, since records written by an older
schema may lack them. -/
structure CardRecord where
  emid : Nat
  name : String
  name_lower : String
  name_normalized : String
  search_normalized : String
  first_letter : String
  tokens : Option (List String)
  initials : Option String
  progressive_initials : Option (List String)
  set_code : String
  set_name : String
  collectors_number : String
  rarity : String
  main_type : String
  image : String
  image_cropped : String
  variant_tags : List String
  is_foil_variant : Bool
deriving DecidableEq

/-- Embedding of toCardRecord (card-db.js lines 186 to 218). -/
def toCardRecord (raw : RawCard) (setCode setName : String) : CardRecord :=
  let name := jsTrim raw.name
  let searchNormalized := normalizeForSearch name
  let vt := extractVariantTags name
  { emid := raw.emid
    name := name
    name_lower := jsToLower name
    name_normalized := jsToLower (normalizeCardName name)
    search_normalized := searchNormalized
    first_letter := String.mk (searchNormalized.toList.take 1)
    tokens := some (extractTokens name)
    initials := some (generateInitials name)
    progressive_initials := some (generateProgressiveInitials name)
    set_code := setCode
    set_name := setName
    collectors_number := raw.collectors_number
    rarity := jsTrim raw.rarity
    main_type := jsTrim raw.main_type
    image := raw.image
    image_cropped := raw.image_cropped
    variant_tags := vt.1
    is_foil_variant := vt.2 }

/-- Combined state of the cards and sets object stores. -/
structure CardsState where
  cards : List CardRecord
  sets : List SetEntry
deriving DecidableEq

/-- IndexedDB put into the cards store: replace the record with the same
primary key, or append a new one. -/
def putCard (r : CardRecord) (l : List CardRecord) : List CardRecord :=
  if l.any (fun x => x.emid = r.emid) then
    l.map (fun x => if x.emid = r.emid then r else x)
  else l ++ [r]

/-- IndexedDB put into the sets store, keyed by set code. -/
def putSetEntry (e : SetEntry) (l : List SetEntry) : List SetEntry :=
  if l.any (fun x => x.set_code = e.set_code) then
    l.map (fun x => if x.set_code = e.set_code then e else x)
  else l ++ [e]

/-- Embedding of cacheSet (card-db.js lines 251 to 272): store one card
record per raw row, upsert the set metadata entry with the row count and
the active flag set, and return the row count. -/
def cacheSet (setCode setName : String) (rawCards : List RawCard) (now : Nat)
    (st : CardsState) : CardsState × Nat :=
  ({ cards := rawCards.foldl (fun cs raw => putCard (toCardRecord raw setCode setName) cs) st.cards
     sets := putSetEntry
       { set_code := setCode, set_name := setName, card_count := rawCards.length
         cached_at := now, active := true } st.sets },
   rawCards.length)

/-- Embedding of getCachedSets (card-db.js lines 416 to 420). -/
def getCachedSets (st : CardsState) : List SetEntry :=
  st.sets

/-- Query intent strategies of the search engine. -/
inductive QStrategy
  | qEmpty
  | qInitials
  | qSpaceInitials
  | qMultiToken
  | qPrefixMatch
deriving DecidableEq

/-- Classified search intent: the selected strategy with its prepared
query string, token list and first token. -/
structure SearchIntent where
  strategy : QStrategy
  query : String
  tokens : List String
  firstToken : String
deriving DecidableEq

/-- Modelled from the spec (search-utils.js is not part of the snapshot):
detectSearchIntent classifies a query: empty or whitespace-only gives the
empty intent; an all-uppercase unspaced word of length at least two gives
the initials intent, lowercased; single uppercase letters separated by
single spaces give the space-initials intent with the letters concatenated
and lowercased; two or more whitespace-separated tokens give the
multi-token intent; anything else is a single-word forward match. -/
def detectSearchIntent (query : String) : SearchIntent :=
  let t := jsTrim query
  if t = "" then ⟨.qEmpty, "", [], ""⟩
  else if t.toList.all isUpperAlpha && t.toList.length ≥ 2 then
    ⟨.qInitials, jsToLower t, [], ""⟩
  else
    let spaceParts := splitKeepEmpty ' ' t.toList []
    if spaceParts.length ≥ 2 &&
        spaceParts.all (fun p => p.length = 1 && p.all isUpperAlpha) then
      ⟨.qSpaceInitials, jsToLower (String.mk spaceParts.flatten), [], ""⟩
    else
      let wsTokens := (splitDropEmpty jsIsWhitespace t.toList []).map
        (fun w => String.mk (w.map jsToLowerChar))
      if wsTokens.length ≥ 2 then
        ⟨.qMultiToken, jsToLower t, wsTokens, wsTokens.headD ""⟩
      else ⟨.qPrefixMatch, jsToLower t, [], ""⟩

/-- Modelled from the spec: matchesTokenPrefixes holds when the query
token list is non-empty and every query token is a prefix of at least one
card token. -/
def matchesTokenPrefixes (queryTokens cardTokens : List String) : Bool :=
  !queryTokens.isEmpty &&
    queryTokens.all (fun q => cardTokens.any (fun c => q.toList.isPrefixOf c.toList))

/-- First position at which the pattern occurs as a substring, if any. -/
def indexOfSub (pat : List Char) : List Char → Option Nat
  | [] => if pat.isEmpty then some 0 else none
  | c :: rest =>
    if pat.isPrefixOf (c :: rest) then some 0
    else (indexOfSub pat rest).map (· + 1)

/-- Modelled from the spec: scoreMatch, lower is better. Initials
strategies score zero on an exact initials match and one hundred
otherwise; the forward-match strategy scores the position of the query
inside the normalized name; the multi-token strategy charges each query
token ten points per position of the earliest card token it prefixes and a
thousand points when it matches none; anything else gets a finite default. -/
def scoreMatch (intent : SearchIntent) (card : CardRecord) : Nat :=
  match intent.strategy with
  | .qInitials | .qSpaceInitials =>
    match card.initials with
    | some s => if s = intent.query then 0 else 100
    | none => 100
  | .qPrefixMatch =>
    let hay :=
      if card.name_normalized = "" then jsToLower card.name else card.name_normalized
    (indexOfSub intent.query.toList hay.toList).getD 100000
  | .qMultiToken =>
    let cardTokens := card.tokens.getD []
    (intent.tokens.map (fun q =>
      match indexOfFirstTokenMatch q cardTokens with
      | some j => 10 * j
      | none => 1000)).foldl (· + ·) 0
  | .qEmpty => 500
where
  /-- Index of the first card token that the query token prefixes. -/
  indexOfFirstTokenMatch (q : String) (cardTokens : List String) : Option Nat :=
    List.findIdx? (fun c => q.toList.isPrefixOf c.toList) cardTokens

/-- Active-set constraint applied during candidate generation: with no
filter every card passes, otherwise the card's set code must be listed. -/
def passesSetFilter (filt : Option (List String)) (c : CardRecord) : Bool :=
  match filt with
  | none => true
  | some f => f.contains c.set_code

/-- Embedding of searchByInitials (card-db.js lines 493 to 525): scan the
initials index; skip records whose initials field is missing or empty or
whose progressive initials are missing; keep a record when its initials
start with the query or its progressive initials contain the query
exactly, subject to the set filter. -/
def searchByInitials (query : String) (filt : Option (List String))
    (cards : List CardRecord) : List CardRecord :=
  cards.filter fun c =>
    match c.initials, c.progressive_initials with
    | some s, some l =>
      !(s = "") && ((query.toList.isPrefixOf s.toList || l.contains query) &&
        passesSetFilter filt c)
    | _, _ => false

/-- Embedding of searchByMultiToken (card-db.js lines 530 to 569): scan
the first-letter index at the first letter of the first token, skip
records lacking a tokens field, and keep records whose tokens are prefixed
by every query token, subject to the set filter. -/
def searchByMultiToken (tokens : List String) (firstToken : String)
    (filt : Option (List String)) (cards : List CardRecord) : List CardRecord :=
  if firstToken = "" then []
  else
    cards.filter fun c =>
      c.first_letter = String.mk (firstToken.toList.take 1) &&
        match c.tokens with
        | some ts => matchesTokenPrefixes tokens ts && passesSetFilter filt c
        | none => false

/-- Embedding of searchByPrefix (card-db.js lines 574 to 609): open a
cursor on the ordered search-normalized index at the lower bound given by
the query and collect records, subject to the set filter, until the index
key no longer starts with the query. -/
def searchByPrefixScan (query : String) (filt : Option (List String))
    (cards : List CardRecord) : List CardRecord :=
  if query = "" then []
  else
    let sorted := sortByBool
      (fun a b => !jsStringLt b.search_normalized a.search_normalized) cards
    ((sorted.dropWhile (fun c => jsStringLt c.search_normalized query)).takeWhile
        (fun c => query.toList.isPrefixOf c.search_normalized.toList)).filter
      (passesSetFilter filt)

/-- Embedding of searchByBasic (card-db.js lines 614 to 646): scan the
first-letter index at the first letter of the lowercased query and collect
records whose normalized name contains the query, subject to the set
filter, stopping once the result limit is reached. -/
def searchByBasic (query : String) (filt : Option (List String))
    (maxResults : Nat) (cards : List CardRecord) : List CardRecord :=
  if query = "" then []
  else
    let q := jsToLower (jsTrim query)
    if q = "" then []
    else
      (cards.filter fun c =>
        c.first_letter = String.mk (q.toList.take 1) &&
          (jsIncludes c.name_normalized q && passesSetFilter filt c)).take maxResults

/-- The set filter searchCards builds: the uppercased supplied codes when
a non-empty list is given, no filter otherwise. -/
def searchSetFilter : Option (List String) → Option (List String)
  | some l => if l.length > 0 then some (l.map jsToUpper) else none
  | none => none

/-- The candidate-generation dispatch of searchCards: one strategy of the
switch block per intent, the default falling back to the basic scan. -/
def searchCandidates (query : String) (activeSets : Option (List String))
    (cards : List CardRecord) : List CardRecord :=
  match (detectSearchIntent query).strategy with
  | .qInitials => searchByInitials (detectSearchIntent query).query (searchSetFilter activeSets) cards
  | .qSpaceInitials => searchByInitials (detectSearchIntent query).query (searchSetFilter activeSets) cards
  | .qMultiToken => searchByMultiToken (detectSearchIntent query).tokens
      (detectSearchIntent query).firstToken (searchSetFilter activeSets) cards
  | .qPrefixMatch => searchByPrefixScan (detectSearchIntent query).query (searchSetFilter activeSets) cards
  | .qEmpty => searchByBasic query (searchSetFilter activeSets) 20 cards

/-- Embedding of searchCards (card-db.js lines 437 to 488): return empty
for a blank query; otherwise classify the intent, build the uppercased set
filter when active sets are supplied and non-empty, dispatch to the
strategy's candidate generator, score and sort every strategy except the
forward match, and truncate to the result limit. -/
def searchCards (query : String) (activeSets : Option (List String))
    (maxResults : Nat := 20) (cards : List CardRecord) : List CardRecord :=
  if jsTrim query = "" then []
  else
    let intent := detectSearchIntent query
    let candidates := searchCandidates query activeSets cards
    let ranked :=
      if candidates.length > 0 ∧ intent.strategy ≠ .qPrefixMatch then
        (sortByBool (fun a b => a.2 ≤ b.2)
          (candidates.map fun c => (c, scoreMatch intent c))).map Prod.fst
      else candidates
    ranked.take maxResults

/-- The search pipeline with no set constraint anywhere, written
separately after the spec's words that an absent or empty active-set list
means all cached sets are searched. -/
def searchCardsAllSets (query : String) (maxResults : Nat := 20)
    (cards : List CardRecord) : List CardRecord :=
  if jsTrim query = "" then []
  else
    let intent := detectSearchIntent query
    let candidates :=
      match intent.strategy with
      | .qInitials => searchByInitials intent.query none cards
      | .qSpaceInitials => searchByInitials intent.query none cards
      | .qMultiToken => searchByMultiToken intent.tokens intent.firstToken none cards
      | .qPrefixMatch => searchByPrefixScan intent.query none cards
      | .qEmpty => searchByBasic query none 20 cards
    let ranked :=
      if candidates.length > 0 ∧ intent.strategy ≠ .qPrefixMatch then
        (sortByBool (fun a b => a.2 ≤ b.2)
          (candidates.map fun c => (c, scoreMatch intent c))).map Prod.fst
      else candidates
    ranked.take maxResults

/-- Stored inventory record (inventory object store); only the fields the
checkout path reads are modelled, with the note optional as in rows
imported without one. -/
structure InventoryRecord where
  echo_inventory_id : Nat
  emid : Nat
  name : String
  set_code : String
  collectors_number : String
  note : Option String
deriving DecidableEq

/-- Stored checkout record (checkouts object store, auto-incremented id).
The legacy list-name field of schema version 3 records is optional; fields
written only at check-in are options that start absent. -/
structure CheckoutRecord where
  id : Nat
  echo_inventory_id : Nat
  emid : Nat
  card_name : String
  set_code : String
  collectors_number : String
  target_location : String
  target_position : Nat
  source_location : Option String
  source_position : Option Nat
  status : String
  checked_out_at : Nat
  checked_in_at : Option Nat
  return_location : Option String
  return_position : Option Nat
  list_name : Option String
deriving DecidableEq

/-- Combined state of the checkouts and inventory object stores, with the
auto-increment counter of the checkouts store. -/
structure CheckoutState where
  checkouts : List CheckoutRecord
  nextId : Nat
  inventory : List InventoryRecord
deriving DecidableEq

/-- Point lookup by primary key in the inventory store. -/
def findInv (invId : Nat) (l : List InventoryRecord) : Option InventoryRecord :=
  l.find? (fun r => r.echo_inventory_id = invId)

/-- Point lookup by primary key in the checkouts store. -/
def findCheckout (id : Nat) (l : List CheckoutRecord) : Option CheckoutRecord :=
  l.find? (fun r => r.id = id)

/-- IndexedDB put into the checkouts store for an existing key. -/
def putCheckout (r : CheckoutRecord) (l : List CheckoutRecord) : List CheckoutRecord :=
  l.map (fun x => if x.id = r.id then r else x)

/-- Rewrite the note of every inventory record with the given key. -/
def setInvNote (invId : Nat) (v : String) (l : List InventoryRecord) : List InventoryRecord :=
  l.map (fun r => if r.echo_inventory_id = invId then { r with note := some v } else r)

/-- The note string the checkout loop parses: the record's note when the
record and its note exist, the empty string otherwise. -/
def effNote (inv : Option InventoryRecord) : String :=
  match inv with
  | none => ""
  | some r => r.note.getD ""

/-- The checkout record one pass of the checkout loop of checkoutCards
creates for the inventory id at batch index i: status out, target position
the offset plus the index, and the source location parsed from the current
inventory note. -/
def checkoutNewRec (targetLocation : String) (targetOffset now invId i : Nat)
    (st : CheckoutState) : CheckoutRecord :=
  let inv := findInv invId st.inventory
  let parsed := parseNoteLocation (effNote inv)
  { id := st.nextId
    echo_inventory_id := invId
    emid := (inv.map (fun r => r.emid)).getD 0
    card_name := (inv.map (fun r => r.name)).getD ""
    set_code := (inv.map (fun r => r.set_code)).getD ""
    collectors_number := (inv.map (fun r => r.collectors_number)).getD ""
    target_location := targetLocation
    target_position := targetOffset + i
    source_location := parsed.1
    source_position := parsed.2
    status := "out"
    checked_out_at := now
    checked_in_at := none
    return_location := none
    return_position := none
    list_name := none }

/-- The state after one pass of the checkout loop: the new record is added
to the ledger, the auto-increment counter advances, and when the inventory
record exists its local note is rewritten to the target location and
position. -/
def checkoutStep (targetLocation : String) (targetOffset now invId i : Nat)
    (st : CheckoutState) : CheckoutState :=
  { st with
    checkouts := st.checkouts ++ [checkoutNewRec targetLocation targetOffset now invId i st]
    nextId := st.nextId + 1
    inventory :=
      match findInv invId st.inventory with
      | some _ =>
        setInvNote invId (targetLocation ++ "p" ++ jsStringOfNat (targetOffset + i)) st.inventory
      | none => st.inventory }

/-- One pass of the checkout loop of checkoutCards, carried out from the
given batch index: read the inventory record, parse its current note,
create a status-out checkout record at the next target position, and
rewrite the local inventory note to the target location and position. -/
def checkoutGo (targetLocation : String) (targetOffset : Nat) (now : Nat) :
    List Nat → Nat → CheckoutState → CheckoutState × List CheckoutRecord
  | [], _, st => (st, [])
  | invId :: rest, i, st =>
    let res := checkoutGo targetLocation targetOffset now rest (i + 1)
      (checkoutStep targetLocation targetOffset now invId i st)
    (res.1, checkoutNewRec targetLocation targetOffset now invId i st :: res.2)

/-- Embedding of checkoutCards (card-db.js lines 660 to 700). -/
def checkoutCards (inventoryIds : List Nat) (targetLocation : String)
    (targetOffset : Nat) (now : Nat) (st : CheckoutState) :
    CheckoutState × List CheckoutRecord :=
  checkoutGo targetLocation targetOffset now inventoryIds 0 st

/-- The field updates applied to one checkout record by checkinCards: flip
the status, stamp the check-in time, and record the return location and
position only when the supplied values are truthy in the JS sense. -/
def checkinUpdate (r : CheckoutRecord) (locationTag : Option String)
    (position : Option Nat) (now : Nat) : CheckoutRecord :=
  { r with
    status := "in"
    checked_in_at := some now
    return_location :=
      match locationTag with
      | some t => if t = "" then r.return_location else some t
      | none => r.return_location
    return_position :=
      match position with
      | some p => if p = 0 then r.return_position else some p
      | none => r.return_position }

/-- One pass of the check-in loop of checkinCards: records found with
status out are updated and counted, everything else is skipped. -/
def checkinGo (locationTag : Option String) (position : Option Nat) (now : Nat) :
    List Nat → CheckoutState → CheckoutState × Nat
  | [], st => (st, 0)
  | id :: rest, st =>
    match findCheckout id st.checkouts with
    | some r =>
      if r.status = "out" then
        let st' := { st with checkouts := putCheckout (checkinUpdate r locationTag position now) st.checkouts }
        let res := checkinGo locationTag position now rest st'
        (res.1, res.2 + 1)
      else checkinGo locationTag position now rest st
    | none => checkinGo locationTag position now rest st

/-- Embedding of checkinCards (card-db.js lines 710 to 731). -/
def checkinCards (ids : List Nat) (locationTag : Option String)
    (position : Option Nat) (now : Nat) (st : CheckoutState) : CheckoutState × Nat :=
  checkinGo locationTag position now ids st

/-- The grouping location of a checkout record: the target location, the
legacy list name, or the unknown marker, first truthy value winning. -/
def effLocation (r : CheckoutRecord) : String :=
  if r.target_location = "" then
    match r.list_name with
    | some l => if l = "" then "Unknown" else l
    | none => "Unknown"
  else r.target_location

/-- One group row returned by getCheckoutGroups. -/
structure CheckoutGroup where
  location : String
  count : Nat
  checkedOutAt : Nat
deriving DecidableEq

/-- Add one status-out record to the group accumulator, as the JS Map in
getCheckoutGroups does: bump the first group with the record's location,
tracking the minimum checkout time, or append a fresh group. -/
def addToGroups : List CheckoutGroup → String → Nat → List CheckoutGroup
  | [], loc, t => [{ location := loc, count := 1, checkedOutAt := t }]
  | g :: gs, loc, t =>
    if g.location = loc then
      { g with count := g.count + 1
               checkedOutAt := if t < g.checkedOutAt then t else g.checkedOutAt } :: gs
    else g :: addToGroups gs loc t

/-- Embedding of getCheckoutGroups (card-db.js lines 738 to 763): read the
status index at out and fold the records into location groups. -/
def getCheckoutGroups (st : CheckoutState) : List CheckoutGroup :=
  (st.checkouts.filter (fun r => r.status = "out")).foldl
    (fun gs r => addToGroups gs (effLocation r) r.checked_out_at) []

/-- Embedding of getCheckoutCards (card-db.js lines 771 to 782): all
status-out records whose grouping location equals the argument. -/
def getCheckoutCards (location : String) (st : CheckoutState) : List CheckoutRecord :=
  st.checkouts.filter (fun r => r.status = "out" && effLocation r = location)

/-- One item of a retrieval plan's pick list. -/
structure PlanItem where
  emid : Nat
  echo_inventory_id : Nat
  card_name : String
  set_code : String
  collectors_number : String
  current_location : Option String
  current_position : Option Nat
  checked : Bool
deriving DecidableEq

/-- Stored retrieval plan (retrieval_plans object store). -/
structure RetrievalPlan where
  id : Nat
  title : String
  target_location : String
  target_offset : Nat
  created_at : Nat
  expires_at : Nat
  status : String
  items : List PlanItem
deriving DecidableEq

/-- Embedding of getRetrievalPlan (card-db.js lines 1162 to 1166): point
lookup by primary key. -/
def getRetrievalPlan (id : Nat) (plans : List RetrievalPlan) : Option RetrievalPlan :=
  plans.find? (fun p => p.id = id)

/-- Embedding of getRetrievalPlans (card-db.js lines 1172 to 1178): all
plans whose expiry lies strictly in the future. -/
def getRetrievalPlans (now : Nat) (plans : List RetrievalPlan) : List RetrievalPlan :=
  plans.filter (fun p => now < p.expires_at)

/-- IndexedDB delete by primary key in the retrieval-plans store. -/
def deletePlanById (id : Nat) (plans : List RetrievalPlan) : List RetrievalPlan :=
  plans.filter (fun p => p.id ≠ id)

/-- Embedding of cleanExpiredPlans (card-db.js lines 1215 to 1232): walk a
snapshot of the store, delete every plan whose expiry is not in the
future, and count the deletions. -/
def cleanExpiredPlans (now : Nat) (plans : List RetrievalPlan) :
    List RetrievalPlan × Nat :=
  plans.foldl
    (fun acc p => if p.expires_at ≤ now then (deletePlanById p.id acc.1, acc.2 + 1) else acc)
    (plans, 0)

/-- IndexedDB put of an existing plan back into the retrieval-plans store. -/
def putPlan (p : RetrievalPlan) (plans : List RetrievalPlan) : List RetrievalPlan :=
  plans.map (fun q => if q.id = p.id then p else q)

/-- Embedding of updateRetrievalPlanItem (card-db.js lines 1187 to 1197):
fetch the plan, and when it exists and has an item at the index, set that
item's checked flag and put the plan back; otherwise change nothing. -/
def updateRetrievalPlanItem (planId itemIndex : Nat) (checked : Bool)
    (plans : List RetrievalPlan) : List RetrievalPlan :=
  match getRetrievalPlan planId plans with
  | none => plans
  | some plan =>
    match plan.items[itemIndex]? with
    | none => plans
    | some item =>
      putPlan { plan with items := plan.items.set itemIndex { item with checked := checked } } plans

/-- Example inventory row stored at location box1, position 5. -/
def exInv1 : InventoryRecord :=
  { echo_inventory_id := 1, emid := 7, name := "Bolt", set_code := "FDN",
    collectors_number := "1", note := some "box1p5" }

/-- Example inventory row with no note. -/
def exInv2 : InventoryRecord :=
  { echo_inventory_id := 2, emid := 8, name := "Helix", set_code := "FDN",
    collectors_number := "2", note := none }

/-- Example checkout-side state with two inventory rows and no open
checkouts. -/
def exChkSt : CheckoutState :=
  { checkouts := [], nextId := 1, inventory := [exInv1, exInv2] }

/-- Example checkout-ledger record currently out at deck1 position 1. -/
def exOutRec : CheckoutRecord :=
  { id := 1, echo_inventory_id := 1, emid := 7, card_name := "Bolt", set_code := "FDN",
    collectors_number := "1", target_location := "deck1", target_position := 1,
    source_location := some "box1", source_position := some 5, status := "out",
    checked_out_at := 17, checked_in_at := none, return_location := none,
    return_position := none, list_name := none }

/-- Example checkout-side state with one open ledger record. -/
def exChkSt2 : CheckoutState :=
  { checkouts := [exOutRec], nextId := 2, inventory := [] }

/-- Example stored card record for the set FDN. -/
def exCard : CardRecord :=
  { emid := 1, name := "Bolt", name_lower := "bolt", name_normalized := "bolt",
    search_normalized := "bolt", first_letter := "b", tokens := some ["bolt"],
    initials := some "b", progressive_initials := some ["b"], set_code := "FDN",
    set_name := "Foundations", collectors_number := "1", rarity := "Common",
    main_type := "Instant", image := "", image_cropped := "",
    variant_tags := [], is_foil_variant := false }

/-- Example stored card record lacking the derived search fields, as
written by the version-1 schema. -/
def exLegacyCard : CardRecord :=
  { exCard with
    emid := 2,
    name := "Lightning Bolt",
    name_lower := "lightning bolt",
    name_normalized := "lightning bolt",
    search_normalized := "lightning bolt",
    first_letter := "l",
    tokens := none,
    initials := none,
    progressive_initials := none }

/-- Example pick-list item for the Bolt row. -/
def exItem1 : PlanItem :=
  { emid := 7, echo_inventory_id := 1, card_name := "Bolt", set_code := "FDN",
    collectors_number := "1", current_location := some "box1",
    current_position := some 5, checked := false }

/-- Example pick-list item for the Helix row. -/
def exItem2 : PlanItem :=
  { emid := 8, echo_inventory_id := 2, card_name := "Helix", set_code := "FDN",
    collectors_number := "2", current_location := none,
    current_position := none, checked := false }

/-- Example retrieval plan that expires at time 100. -/
def exPlan1 : RetrievalPlan :=
  { id := 1, title := "deck1 2026-02-07", target_location := "deck1", target_offset := 1,
    created_at := 50, expires_at := 100, status := "active",
    items := [exItem1, exItem2] }

/-- Example retrieval plan that expires at time 300. -/
def exPlan2 : RetrievalPlan :=
  { id := 2, title := "deck2 2026-02-08", target_location := "deck2", target_offset := 1,
    created_at := 150, expires_at := 300, status := "active", items := [] }

theorem string_eq_empty_iff (s : String) : s = "" ↔ s.toList = [] := by
  constructor
  · intro h; subst h; rfl
  · intro h
    cases s with
    | mk d => simp only [String.toList] at h; subst h; rfl

theorem matchFrom_cons_eq (acc : List Char) (c : Char) (rest : List Char) :
    matchFrom acc (c :: rest)
      = if (c = 'p' && !acc.isEmpty && acc.all (fun x => !isLineTerminator x) &&
            !rest.isEmpty && rest.all isDigitChar) then
          some (acc.reverse, rest)
        else matchFrom (c :: acc) rest := rfl

theorem matchFrom_sound (l : List Char) : ∀ acc t d, matchFrom acc l = some (t, d) →
    acc.reverse ++ l = t ++ 'p' :: d ∧ t ≠ [] ∧
      t.all (fun x => !isLineTerminator x) = true ∧ d ≠ [] ∧ d.all isDigitChar = true := by
  induction l with
  | nil => intro acc t d h; simp [matchFrom] at h
  | cons c rest ih =>
    intro acc t d h
    rw [matchFrom_cons_eq] at h
    by_cases hc : (c = 'p' && !acc.isEmpty && acc.all (fun x => !isLineTerminator x) &&
        !rest.isEmpty && rest.all isDigitChar) = true
    · rw [if_pos hc] at h
      simp only [Option.some.injEq, Prod.mk.injEq] at h
      obtain ⟨h1, h2⟩ := h
      subst h1; subst h2
      simp only [Bool.and_eq_true, Bool.not_eq_true', List.isEmpty_eq_false,
        decide_eq_true_eq] at hc
      obtain ⟨⟨⟨⟨hp, hacc⟩, hterm⟩, hrest⟩, hdig⟩ := hc
      refine ⟨by simp [hp], by simpa using hacc, ?_, hrest, hdig⟩
      rw [List.all_reverse]
      exact hterm
    · rw [if_neg hc] at h
      have := ih (c :: acc) t d h
      simpa using this

theorem matchFrom_of_decomp (t : List Char) : ∀ acc (d : List Char),
    acc.reverse ++ t ≠ [] →
    (acc.reverse ++ t).all (fun x => !isLineTerminator x) = true →
    d ≠ [] → d.all isDigitChar = true →
    matchFrom acc (t ++ 'p' :: d) = some (acc.reverse ++ t, d) := by
  induction t with
  | nil =>
    intro acc d hne hterm hd hall
    have hacc : acc ≠ [] := by simpa using hne
    have haccall : acc.all (fun x => !isLineTerminator x) = true := by
      have h2 : acc.reverse.all (fun x => !isLineTerminator x) = true := by
        simpa using hterm
      rwa [List.all_reverse] at h2
    have hcond : ('p' = 'p' && !acc.isEmpty && acc.all (fun x => !isLineTerminator x) &&
        !d.isEmpty && d.all isDigitChar) = true := by
      simp [hacc, hd, hall, haccall, List.isEmpty_eq_false]
    simp only [List.nil_append, List.append_nil]
    rw [matchFrom_cons_eq, if_pos hcond]
  | cons c t' ih =>
    intro acc d hne hterm hd hall
    have hpd : (('p' : Char) ∈ t' ++ 'p' :: d) := by simp
    have hnotall : ((t' ++ 'p' :: d).all isDigitChar) = false := by
      refine List.all_eq_false.mpr ⟨'p', hpd, ?_⟩
      decide
    have hcond : (c = 'p' && !acc.isEmpty && acc.all (fun x => !isLineTerminator x) &&
        !(t' ++ 'p' :: d).isEmpty && (t' ++ 'p' :: d).all isDigitChar) = false := by
      simp [hnotall]
    have hne' : (c :: acc).reverse ++ t' ≠ [] := by simp
    have hterm' : ((c :: acc).reverse ++ t').all (fun x => !isLineTerminator x) = true := by
      have hperm : (c :: acc).reverse ++ t' = acc.reverse ++ c :: t' := by simp
      rw [hperm]
      exact hterm
    have hih := ih (c :: acc) d hne' hterm' hd hall
    calc matchFrom acc (c :: t' ++ 'p' :: d)
        = matchFrom (c :: acc) (t' ++ 'p' :: d) := by
          rw [List.cons_append, matchFrom_cons_eq, hcond]; simp
      _ = some ((c :: acc).reverse ++ t', d) := hih
      _ = some (acc.reverse ++ c :: t', d) := by simp

theorem digitVal_digitChar (d : Nat) (h : d < 10) : digitVal (digitChar d) = d := by
  interval_cases d <;> decide

theorem isDigitChar_digitChar (d : Nat) (h : d < 10) : isDigitChar (digitChar d) = true := by
  interval_cases d <;> decide

theorem not_ws_of_digit (c : Char) (h : isDigitChar c = true) : jsIsWhitespace c = false := by
  by_contra hcon
  have hw : jsIsWhitespace c = true := by
    revert hcon
    cases jsIsWhitespace c <;> simp
  rw [jsIsWhitespace] at hw
  have hmem : c ∈ jsWhitespaceChars := List.elem_iff.mp hw
  fin_cases hmem <;> revert h <;> decide

/-- Value of a little-endian digit list, units digit first. -/
def valRev (l : List Char) : Nat :=
  l.foldr (fun c acc => digitVal c + 10 * acc) 0

theorem digitsToNat_reverse (l : List Char) : digitsToNat l.reverse = valRev l := by
  suffices h : ∀ a, (l.reverse).foldl (fun a c => a * 10 + digitVal c) a
      = a * 10 ^ l.length + valRev l by
    simpa [digitsToNat] using h 0
  induction l with
  | nil => intro a; simp [valRev]
  | cons c l' ih =>
    intro a
    simp only [List.reverse_cons, List.foldl_append, List.foldl_cons, List.foldl_nil, ih,
      valRev, List.foldr_cons]
    show (a * 10 ^ l'.length + valRev l') * 10 + digitVal c
        = a * 10 ^ (l'.length + 1) + (digitVal c + 10 * valRev l')
    ring

theorem natDigitsRevCore_spec : ∀ fuel n, n ≤ fuel →
    (natDigitsRevCore fuel n).all isDigitChar = true ∧ valRev (natDigitsRevCore fuel n) = n := by
  intro fuel
  induction fuel with
  | zero =>
    intro n hn
    interval_cases n
    exact ⟨rfl, rfl⟩
  | succ f ih =>
    intro n hn
    match n with
    | 0 => exact ⟨rfl, rfl⟩
    | m + 1 =>
      have hdiv : (m + 1) / 10 ≤ f := by
        have h1 : (m + 1) / 10 < m + 1 := Nat.div_lt_self (Nat.succ_pos m) (by omega)
        omega
      obtain ⟨ha, hv⟩ := ih ((m + 1) / 10) hdiv
      have hmod : (m + 1) % 10 < 10 := Nat.mod_lt _ (by omega)
      constructor
      · simp only [natDigitsRevCore, List.all_cons, Bool.and_eq_true]
        exact ⟨isDigitChar_digitChar _ hmod, ha⟩
      · simp only [natDigitsRevCore, valRev, List.foldr_cons]
        show digitVal (digitChar ((m + 1) % 10)) + 10 * valRev (natDigitsRevCore f ((m + 1) / 10)) = m + 1
        rw [digitVal_digitChar _ hmod, hv]
        omega

theorem jsStringOfNat_spec (n : Nat) :
    (jsStringOfNat n).toList ≠ [] ∧ (jsStringOfNat n).toList.all isDigitChar = true ∧
      digitsToNat (jsStringOfNat n).toList = n := by
  by_cases h : n = 0
  · subst h; refine ⟨by decide, by decide, by decide⟩
  · obtain ⟨ha, hv⟩ := natDigitsRevCore_spec n n (Nat.le_refl n)
    have htl : (jsStringOfNat n).toList = (natDigitsRevCore n n).reverse := by
      simp [jsStringOfNat, h]
    have hne : natDigitsRevCore n n ≠ [] := by
      intro hcontra
      rw [hcontra] at hv
      simp only [valRev, List.foldr_nil] at hv
      exact h hv.symm
    refine ⟨?_, ?_, ?_⟩
    · rw [htl]; simpa using hne
    · rw [htl, List.all_reverse]; exact ha
    · rw [htl, digitsToNat_reverse]; exact hv

theorem dropWhile_append_of_ne (p : Char → Bool) (l m : List Char)
    (hl : l.dropWhile p = l) (hne : l ≠ []) : (l ++ m).dropWhile p = l ++ m := by
  cases l with
  | nil => exact absurd rfl hne
  | cons c l' =>
    have hc : p c = false := by
      by_contra hcon
      have hc' : p c = true := by revert hcon; cases p c <;> simp
      rw [List.dropWhile_cons, if_pos hc'] at hl
      have hlen := congrArg List.length hl
      have hle := (List.dropWhile_sublist (p := p) (l := l')).length_le
      simp at hlen
      omega
    simp [List.dropWhile_cons, hc]

theorem jsTrimList_of_clean (l : List Char)
    (h1 : l.dropWhile jsIsWhitespace = l)
    (h2 : l.reverse.dropWhile jsIsWhitespace = l.reverse) : jsTrimList l = l := by
  simp [jsTrimList, h1, h2]

/-- Claim C9 is false as stated: with the non-empty tag consisting of a
space then the letter a, and position three, the parser trims the leading
space away and returns the tag without it, not the supplied tag. -/
theorem c9_tag_not_roundtripped :
    parseNoteLocation (" a" ++ "p" ++ jsStringOfNat 3) = (some "a", some 3) ∧
      (some "a" : Option String) ≠ some " a" := by
  constructor
  · decide
  · decide

/-- Claim C9, amended: the note round-trips for every non-empty tag with
no leading whitespace and no line terminators (which the regex dot cannot
match), even when the tag itself contains the letter p followed by digits,
because the position digits must extend to the end of the note. -/
theorem parseNoteLocation_roundtrip (tag : String) (n : Nat)
    (hne : tag.toList ≠ [])
    (hclean : tag.toList.dropWhile jsIsWhitespace = tag.toList)
    (hterm : tag.toList.all (fun x => !isLineTerminator x) = true) :
    parseNoteLocation (tag ++ "p" ++ jsStringOfNat n) = (some tag, some n) := by
  obtain ⟨hdne, hdall, hdval⟩ := jsStringOfNat_spec n
  set ds := (jsStringOfNat n).toList with hds
  have htl : (tag ++ "p" ++ jsStringOfNat n).toList = tag.toList ++ 'p' :: ds := by
    simp [hds]
  have hsne : (tag ++ "p" ++ jsStringOfNat n) ≠ "" := by
    intro hcontra
    rw [string_eq_empty_iff] at hcontra
    rw [htl] at hcontra
    simp at hcontra
  have hleft : (tag.toList ++ 'p' :: ds).dropWhile jsIsWhitespace = tag.toList ++ 'p' :: ds :=
    dropWhile_append_of_ne _ _ _ hclean hne
  have hright : (tag.toList ++ 'p' :: ds).reverse.dropWhile jsIsWhitespace
      = (tag.toList ++ 'p' :: ds).reverse := by
    have hrev : (tag.toList ++ 'p' :: ds).reverse = ds.reverse ++ ('p' :: tag.toList.reverse) := by
      simp
    rw [hrev]
    have hdsrev : ds.reverse.dropWhile jsIsWhitespace = ds.reverse := by
      cases hrc : ds.reverse with
      | nil => simp
      | cons c cs =>
        have hcmem : c ∈ ds := by
          have : c ∈ ds.reverse := by rw [hrc]; exact List.mem_cons_self c cs
          simpa using this
        have hcd : isDigitChar c = true := by
          have := List.all_eq_true.mp hdall c hcmem
          simpa using this
        rw [List.dropWhile_cons, if_neg (by simp [not_ws_of_digit c hcd])]
    have hdsrevne : ds.reverse ≠ [] := by simpa using hdne
    exact dropWhile_append_of_ne _ _ _ hdsrev hdsrevne
  have htrim : jsTrimList (tag.toList ++ 'p' :: ds) = tag.toList ++ 'p' :: ds :=
    jsTrimList_of_clean _ hleft hright
  have hmatch : matchFrom [] (tag.toList ++ 'p' :: ds) = some (tag.toList, ds) := by
    have := matchFrom_of_decomp tag.toList [] ds (by simpa using hne) (by simpa using hterm)
      (by simpa using hdne) hdall
    simpa using this
  rw [parseNoteLocation, if_neg hsne, htl, htrim, hmatch]
  show (some (String.mk tag.toList), some (digitsToNat ds)) = (some tag, some n)
  rw [hdval]
  cases tag
  rfl

/-- Witness for the amended claim C9 at the concrete tag b5r1 and
position 12: the hypotheses hold and the parse returns the pair. -/
theorem parseNoteLocation_roundtrip_witness :
    parseNoteLocation ("b5r1" ++ "p" ++ jsStringOfNat 12) = (some "b5r1", some 12) :=
  parseNoteLocation_roundtrip "b5r1" 12 (by decide) (by decide) (by decide)

/-- Claim C3 is false as stated: the note b5p3 followed by a space does
not decompose into tag, letter p and digits reaching the end (by
matchFrom_of_decomp any such decomposition would make the lazy match
succeed, but it returns none on the untrimmed text), so the claim calls it
pattern-violating and requires the pair of none and none; the parser trims
first and returns the tag b5 with position three instead. -/
theorem parseNoteLocation_claimC3_counterexample :
    matchFrom [] "b5p3 ".toList = none ∧
      parseNoteLocation "b5p3 " = (some "b5", some 3) := by
  exact ⟨by decide, by decide⟩

/-- Claim C3, amended: parseNoteLocation is total, and its result is
determined by the trimmed note: whenever the trimmed note decomposes as a
non-empty tag free of line terminators (which the regex dot cannot match),
the letter p, and a non-empty digit run reaching the end, the parser
returns exactly that tag and the numeric value of the digits; when the
trimmed note admits no such decomposition the parser returns the pair of
none and none. -/
theorem parseNoteLocation_spec (s : String) :
    (∀ t d, jsTrimList s.toList = t ++ 'p' :: d → t ≠ [] →
      t.all (fun x => !isLineTerminator x) = true → d ≠ [] →
      d.all isDigitChar = true →
      parseNoteLocation s = (some (String.mk t), some (digitsToNat d))) ∧
    ((∀ t d, jsTrimList s.toList = t ++ 'p' :: d → t ≠ [] →
      t.all (fun x => !isLineTerminator x) = true → d ≠ [] →
      d.all isDigitChar ≠ true) →
      parseNoteLocation s = (none, none)) := by
  constructor
  · intro t d hdec htne hterm hdne hall
    have hsne : s ≠ "" := by
      intro hcontra
      rw [string_eq_empty_iff] at hcontra
      rw [hcontra] at hdec
      have hnil : jsTrimList ([] : List Char) = [] := rfl
      rw [hnil] at hdec
      exact (List.append_ne_nil_of_right_ne_nil t (by simp)) hdec.symm
    have hmatch : matchFrom [] (jsTrimList s.toList) = some (t, d) := by
      rw [hdec]
      have := matchFrom_of_decomp t [] d (by simpa using htne) (by simpa using hterm)
        hdne hall
      simpa using this
    rw [parseNoteLocation, if_neg hsne, hmatch]
  · intro hno
    cases hm : matchFrom [] (jsTrimList s.toList) with
    | none =>
      by_cases hse : s = ""
      · rw [parseNoteLocation, if_pos hse]
      · rw [parseNoteLocation, if_neg hse, hm]
    | some td =>
      obtain ⟨t, d⟩ := td
      obtain ⟨hdec, htne, hterm, hdne, hall⟩ := matchFrom_sound _ [] t d hm
      exact absurd hall (hno t d (by simpa using hdec) htne hterm hdne)

/-- Witness for the amended claim C3 at the well-formed note b5r1p3: the
decomposition hypotheses hold and the parser returns tag b5r1, position 3. -/
theorem parseNoteLocation_spec_witness :
    parseNoteLocation "b5r1p3" = (some (String.mk "b5r1".toList), some (digitsToNat ['3'])) :=
  (parseNoteLocation_spec "b5r1p3").1 "b5r1".toList ['3'] (by decide) (by decide)
    (by decide) (by decide) (by decide)

theorem mem_putSetEntry_self (e : SetEntry) (l : List SetEntry) : e ∈ putSetEntry e l := by
  unfold putSetEntry
  by_cases h : l.any (fun x => x.set_code = e.set_code) = true
  · rw [if_pos h]
    obtain ⟨x, hx, hpx⟩ := List.any_eq_true.mp h
    refine List.mem_map.mpr ⟨x, hx, ?_⟩
    simp only [decide_eq_true_eq] at hpx
    simp [hpx]
  · rw [if_neg h]
    simp

/-- Claim C8: cacheSet returns the row count, and the cached-sets listing
then contains an entry for the set code whose card count equals the row
count and whose active flag is set. -/
theorem cacheSet_count_and_entry (setCode setName : String) (rawCards : List RawCard)
    (now : Nat) (st : CardsState) :
    (cacheSet setCode setName rawCards now st).2 = rawCards.length ∧
    ∃ e ∈ getCachedSets (cacheSet setCode setName rawCards now st).1,
      e.set_code = setCode ∧ e.card_count = rawCards.length ∧ e.active = true :=
  ⟨rfl, ⟨_, mem_putSetEntry_self _ _, rfl, rfl, rfl⟩⟩

theorem getRetrievalPlan_of_mem (plans : List RetrievalPlan) (p : RetrievalPlan)
    (hnd : (plans.map (fun q => q.id)).Nodup) (hp : p ∈ plans) :
    getRetrievalPlan p.id plans = some p := by
  induction plans with
  | nil => cases hp
  | cons q rest ih =>
    rw [List.map_cons, List.nodup_cons] at hnd
    by_cases hq : q.id = p.id
    · have hpq : p = q := by
        rcases List.mem_cons.mp hp with h | h
        · exact h
        · exact absurd (hq ▸ List.mem_map_of_mem (fun r => r.id) h) hnd.1
      rw [getRetrievalPlan, List.find?_cons_of_pos _ (by simp [hq]), hpq]
    · have hp' : p ∈ rest := by
        rcases List.mem_cons.mp hp with h | h
        · exact absurd (h ▸ rfl) hq
        · exact h
      rw [getRetrievalPlan, List.find?_cons_of_neg _ (by simp [hq])]
      exact ih hnd.2 hp'

theorem cleanFold_spec (now : Nat) (all : List RetrievalPlan) :
    ∀ (acc : List RetrievalPlan) (n : Nat),
    (all.foldl
        (fun acc p => if p.expires_at ≤ now then (deletePlanById p.id acc.1, acc.2 + 1) else acc)
        (acc, n))
      = (acc.filter (fun q => all.all (fun p => !(decide (p.expires_at ≤ now) && q.id == p.id))),
         n + (all.filter (fun p => p.expires_at ≤ now)).length) := by
  induction all with
  | nil =>
    intro acc n
    simp
  | cons p rest ih =>
    intro acc n
    by_cases hexp : p.expires_at ≤ now
    · rw [List.foldl_cons, if_pos hexp, ih]
      rw [Prod.mk.injEq]
      refine ⟨?_, ?_⟩
      · show (deletePlanById p.id acc).filter _ = _
        unfold deletePlanById
        rw [List.filter_filter]
        refine List.filter_congr ?_
        intro q _
        by_cases hqp : q.id = p.id <;> simp [hexp, hqp]
      · show n + 1 + (rest.filter (fun p => p.expires_at ≤ now)).length = _
        rw [List.filter_cons, if_pos (by simpa using hexp)]
        simp [Nat.add_comm, Nat.add_assoc, Nat.add_left_comm]
    · rw [List.foldl_cons, if_neg hexp, ih]
      rw [Prod.mk.injEq]
      refine ⟨?_, ?_⟩
      · refine List.filter_congr ?_
        intro q _
        simp [hexp]
      · rw [List.filter_cons, if_neg (by simpa using hexp)]

/-- Claim C4: a stored plan whose expiry is not in the future is excluded
from the non-expired listing, still returned by the point lookup, and the
expiry sweep deletes exactly the plans whose expiry is not in the future,
returning their count and keeping every unexpired plan. -/
theorem retrievalPlan_expiry_spec (plans : List RetrievalPlan) (now : Nat) (p : RetrievalPlan)
    (hnd : (plans.map (fun q => q.id)).Nodup) (hp : p ∈ plans) (hexp : p.expires_at ≤ now) :
    p ∉ getRetrievalPlans now plans ∧
    getRetrievalPlan p.id plans = some p ∧
    cleanExpiredPlans now plans
      = (plans.filter (fun q => now < q.expires_at),
         (plans.filter (fun q => q.expires_at ≤ now)).length) := by
  refine ⟨?_, getRetrievalPlan_of_mem plans p hnd hp, ?_⟩
  · intro hmem
    have := (List.mem_filter.mp hmem).2
    simp only [decide_eq_true_eq] at this
    omega
  · rw [cleanExpiredPlans, cleanFold_spec now plans plans 0]
    refine Prod.ext ?_ (by simp)
    show plans.filter _ = plans.filter _
    refine List.filter_congr ?_
    intro q hq
    by_cases hqe : q.expires_at ≤ now
    · have hqfail : (plans.all (fun r => !(decide (r.expires_at ≤ now) && q.id == r.id))) = false := by
        refine List.all_eq_false.mpr ⟨q, hq, ?_⟩
        simp [hqe]
      rw [hqfail]
      simp
      omega
    · have hqok : (plans.all (fun r => !(decide (r.expires_at ≤ now) && q.id == r.id))) = true := by
        refine List.all_eq_true.mpr ?_
        intro r hr
        by_cases hid : q.id = r.id
        · have : q = r := List.inj_on_of_nodup_map hnd hq hr hid
          subst this
          simp [hqe]
        · simp [hid]
      rw [hqok]
      simp
      omega

/-- Witness for claim C4: with a plan expiring at time 100 and another at
time 300, at time 100 the first is not listed, is still fetched by id, and
the sweep deletes it alone and reports one deletion. -/
theorem retrievalPlan_expiry_spec_witness :
    exPlan1 ∉ getRetrievalPlans 100 [exPlan1, exPlan2] ∧
    getRetrievalPlan exPlan1.id [exPlan1, exPlan2] = some exPlan1 ∧
    cleanExpiredPlans 100 [exPlan1, exPlan2]
      = ([exPlan1, exPlan2].filter (fun q => 100 < q.expires_at),
         ([exPlan1, exPlan2].filter (fun q => q.expires_at ≤ 100)).length) :=
  retrievalPlan_expiry_spec [exPlan1, exPlan2] 100 exPlan1 (by decide)
    (by simp) (by decide)

theorem getRetrievalPlan_id (plans : List RetrievalPlan) (planId : Nat)
    (plan : RetrievalPlan) (h : getRetrievalPlan planId plans = some plan) :
    plan.id = planId := by
  have := List.find?_some h
  simpa using this

/-- Claim C10: the item toggle is a no-op leaving the store untouched when
the plan is missing or the index is out of range; otherwise it rewrites
exactly the addressed plan, replacing only the addressed item's checked
flag, and leaves every other plan, item and field unchanged. -/
theorem updateRetrievalPlanItem_spec (plans : List RetrievalPlan)
    (planId itemIndex : Nat) (checked : Bool) :
    ((getRetrievalPlan planId plans = none ∨
      ∃ plan, getRetrievalPlan planId plans = some plan ∧ plan.items.length ≤ itemIndex) →
      updateRetrievalPlanItem planId itemIndex checked plans = plans) ∧
    (∀ plan item, getRetrievalPlan planId plans = some plan →
      plan.items[itemIndex]? = some item →
      updateRetrievalPlanItem planId itemIndex checked plans
        = plans.map (fun q => if q.id = planId then
            { plan with items := plan.items.set itemIndex { item with checked := checked } }
          else q)) := by
  constructor
  · intro h
    rcases h with h | ⟨plan, hfind, hlen⟩
    · rw [updateRetrievalPlanItem, h]
    · have hnone : plan.items[itemIndex]? = none := List.getElem?_eq_none_iff.mpr hlen
      simp only [updateRetrievalPlanItem, hfind, hnone]
  · intro plan item hfind hitem
    simp only [updateRetrievalPlanItem, hfind, hitem]
    unfold putPlan
    refine List.map_congr_left ?_
    intro q _
    have hid : plan.id = planId := getRetrievalPlan_id plans planId plan hfind
    simp [hid]

/-- Witness for claim C10: toggling item 0 of plan 1 in a store of two
plans rewrites exactly that item of that plan. -/
theorem updateRetrievalPlanItem_spec_witness :
    updateRetrievalPlanItem 1 0 true [exPlan1, exPlan2]
      = [exPlan1, exPlan2].map (fun q => if q.id = 1 then
          { exPlan1 with items := exPlan1.items.set 0 { exItem1 with checked := true } }
        else q) :=
  (updateRetrievalPlanItem_spec [exPlan1, exPlan2] 1 0 true).2
    exPlan1 exItem1 (by decide) (by decide)

theorem mem_insertSorted {α : Type} (le : α → α → Bool) (a x : α) (l : List α) :
    x ∈ insertSorted le a l ↔ x = a ∨ x ∈ l := by
  induction l with
  | nil => simp [insertSorted]
  | cons b l' ih =>
    rw [insertSorted]
    by_cases h : le a b = true
    · rw [if_pos h]
      simp
    · rw [if_neg h]
      simp only [List.mem_cons, ih]
      tauto

theorem mem_sortByBool {α : Type} (le : α → α → Bool) (x : α) (l : List α) :
    x ∈ sortByBool le l ↔ x ∈ l := by
  induction l with
  | nil => simp [sortByBool]
  | cons b l' ih =>
    have hstep : sortByBool le (b :: l') = insertSorted le b (sortByBool le l') := rfl
    rw [hstep, mem_insertSorted]
    simp only [List.mem_cons, ih]

theorem passes_of_mem_searchByInitials (q : String) (filt : Option (List String))
    (cards : List CardRecord) (c : CardRecord)
    (h : c ∈ searchByInitials q filt cards) : passesSetFilter filt c = true := by
  rw [searchByInitials] at h
  have hp := (List.mem_filter.mp h).2
  cases hi : c.initials with
  | none => rw [hi] at hp; simp at hp
  | some s =>
    cases hpi : c.progressive_initials with
    | none => rw [hi, hpi] at hp; simp at hp
    | some l =>
      rw [hi, hpi] at hp
      simp only [Bool.and_eq_true] at hp
      exact hp.2.2

theorem passes_of_mem_searchByMultiToken (tks : List String) (ft : String)
    (filt : Option (List String)) (cards : List CardRecord) (c : CardRecord)
    (h : c ∈ searchByMultiToken tks ft filt cards) : passesSetFilter filt c = true := by
  rw [searchByMultiToken] at h
  by_cases hft : ft = ""
  · rw [if_pos hft] at h
    cases h
  · rw [if_neg hft] at h
    have hp := (List.mem_filter.mp h).2
    cases ht : c.tokens with
    | none => rw [ht] at hp; simp at hp
    | some ts =>
      rw [ht] at hp
      simp only [Bool.and_eq_true] at hp
      exact hp.2.2

theorem passes_of_mem_searchByPrefixScan (q : String) (filt : Option (List String))
    (cards : List CardRecord) (c : CardRecord)
    (h : c ∈ searchByPrefixScan q filt cards) : passesSetFilter filt c = true := by
  rw [searchByPrefixScan] at h
  by_cases hq : q = ""
  · rw [if_pos hq] at h
    cases h
  · rw [if_neg hq] at h
    exact (List.mem_filter.mp h).2

theorem passes_of_mem_searchByBasic (q : String) (filt : Option (List String))
    (maxResults : Nat) (cards : List CardRecord) (c : CardRecord)
    (h : c ∈ searchByBasic q filt maxResults cards) : passesSetFilter filt c = true := by
  rw [searchByBasic] at h
  by_cases hq : q = ""
  · rw [if_pos hq] at h
    cases h
  · rw [if_neg hq] at h
    by_cases hq2 : jsToLower (jsTrim q) = ""
    · rw [if_pos hq2] at h
      cases h
    · rw [if_neg hq2] at h
      have hp := (List.mem_filter.mp (List.mem_of_mem_take h)).2
      simp only [Bool.and_eq_true] at hp
      exact hp.2.2

theorem mem_candidates_of_mem_searchCards (q : String) (activeSets : Option (List String))
    (limit : Nat) (cards : List CardRecord) (c : CardRecord) (htrim : jsTrim q ≠ "")
    (h : c ∈ searchCards q activeSets limit cards) :
    c ∈ searchCandidates q activeSets cards := by
  unfold searchCards at h
  rw [if_neg htrim] at h
  have hmem := List.mem_of_mem_take h
  split at hmem
  · obtain ⟨⟨c', s⟩, hpair, hfst⟩ := List.mem_map.mp hmem
    have hscored := (mem_sortByBool _ _ _).mp hpair
    obtain ⟨c'', hc'', heq⟩ := List.mem_map.mp hscored
    have hcc : c'' = c := by
      have h1 : c'' = c' := congrArg Prod.fst heq
      have h2 : c' = c := hfst
      exact h1.trans h2
    exact hcc ▸ hc''
  · exact hmem

/-- Claim C5 is false as stated: searchCards uppercases the supplied set
codes before filtering, so with the lowercase code fdn supplied, the
stored card whose set code is the uppercase FDN is returned even though
FDN is not one of the supplied codes. -/
theorem searchCards_claimC5_counterexample :
    searchCards "bolt" (some ["fdn"]) 20 [exCard] = [exCard] ∧
      exCard.set_code ∉ ["fdn"] := by
  exact ⟨by decide, by decide⟩

/-- Claim C5, amended: with a non-empty active-set list, every returned
record's set code is the uppercasing of one of the supplied codes; with an
absent or empty list no set filtering is applied, the pipeline coinciding
with the filter-free search over all cached sets. -/
theorem searchCards_set_filter_spec :
    (∀ (q : String) (as : List String) (limit : Nat) (cards : List CardRecord)
       (c : CardRecord), as ≠ [] → c ∈ searchCards q (some as) limit cards →
       c.set_code ∈ as.map jsToUpper) ∧
    (∀ (q : String) (limit : Nat) (cards : List CardRecord),
       searchCards q none limit cards = searchCardsAllSets q limit cards ∧
       searchCards q (some []) limit cards = searchCardsAllSets q limit cards) := by
  constructor
  · intro q as limit cards c hne hmem
    have htrim : jsTrim q ≠ "" := by
      intro hcontra
      unfold searchCards at hmem
      rw [if_pos hcontra] at hmem
      cases hmem
    have hcand := mem_candidates_of_mem_searchCards q (some as) limit cards c htrim hmem
    have hlen : as.length > 0 := List.length_pos.mpr hne
    have hfilt : searchSetFilter (some as) = some (as.map jsToUpper) := by
      rw [searchSetFilter, if_pos hlen]
    unfold searchCandidates at hcand
    rw [hfilt] at hcand
    have hpasses : passesSetFilter (some (as.map jsToUpper)) c = true := by
      revert hcand
      split
      · exact passes_of_mem_searchByInitials _ _ _ _
      · exact passes_of_mem_searchByInitials _ _ _ _
      · exact passes_of_mem_searchByMultiToken _ _ _ _ _
      · exact passes_of_mem_searchByPrefixScan _ _ _ _
      · exact passes_of_mem_searchByBasic _ _ _ _ _
    rw [passesSetFilter] at hpasses
    exact List.elem_iff.mp hpasses
  · intro q limit cards
    exact ⟨rfl, rfl⟩

/-- Witness for the amended claim C5: searching bolt with the supplied
code fdn returns only cards whose set code is the uppercased FDN, and an
absent or empty active-set list searches without any set filter. -/
theorem searchCards_set_filter_spec_witness :
    exCard.set_code ∈ ["fdn"].map jsToUpper ∧
      searchCards "bolt" none 20 [exCard] = searchCardsAllSets "bolt" 20 [exCard] :=
  ⟨searchCards_set_filter_spec.1 "bolt" ["fdn"] 20 [exCard] exCard (by decide) (by decide),
   (searchCards_set_filter_spec.2 "bolt" 20 [exCard]).1⟩

/-- Claim C7: searchCards returns the empty list when the query is empty
or whitespace-only, and otherwise returns at most the result limit of
records (twenty by default). -/
theorem searchCards_empty_and_limit (q : String) (activeSets : Option (List String))
    (limit : Nat) (cards : List CardRecord) :
    (jsTrim q = "" → searchCards q activeSets limit cards = []) ∧
    (searchCards q activeSets limit cards).length ≤ limit := by
  constructor
  · intro h
    unfold searchCards
    rw [if_pos h]
  · by_cases h : jsTrim q = ""
    · unfold searchCards
      rw [if_pos h]
      simp
    · unfold searchCards
      rw [if_neg h]
      apply List.length_take_le

/-- Witness for claim C7: a whitespace-only query returns nothing, and a
real query over an example store returns at most the default limit. -/
theorem searchCards_empty_and_limit_witness :
    searchCards "   " (some ["FDN"]) 20 [exCard] = [] ∧
      (searchCards "bolt" none 20 [exCard, exLegacyCard]).length ≤ 20 :=
  ⟨(searchCards_empty_and_limit "   " (some ["FDN"]) 20 [exCard]).1 (by decide),
   (searchCards_empty_and_limit "bolt" none 20 [exCard, exLegacyCard]).2⟩

/-- Claim C6: under the initials strategies a record carrying a non-empty
initials string and a progressive-initials list is a candidate exactly
when its initials start with the query or its progressive initials contain
the query, and it passes the set filter; a record missing either derived
field (or carrying an empty initials string, which the scan treats the
same way) is never a candidate, and the scan is total so such records
cannot fail the search. -/
theorem searchByInitials_candidate_spec :
    (∀ (q : String) (filt : Option (List String)) (cards : List CardRecord)
       (c : CardRecord) (s : String) (l : List String),
       c.initials = some s → s ≠ "" → c.progressive_initials = some l →
       (c ∈ searchByInitials q filt cards ↔
         c ∈ cards ∧ ((q.toList.isPrefixOf s.toList ∨ q ∈ l) ∧
           passesSetFilter filt c = true))) ∧
    (∀ (q : String) (filt : Option (List String)) (cards : List CardRecord)
       (c : CardRecord),
       (c.initials = none ∨ c.initials = some "" ∨ c.progressive_initials = none) →
       c ∉ searchByInitials q filt cards) := by
  constructor
  · intro q filt cards c s l hi hs hpi
    rw [searchByInitials, List.mem_filter]
    constructor
    · intro ⟨hmem, hp⟩
      rw [hi, hpi] at hp
      simp only [Bool.and_eq_true, Bool.or_eq_true, Bool.not_eq_true',
        decide_eq_false_iff_not, decide_eq_true_eq, List.elem_iff] at hp
      exact ⟨hmem, hp.2⟩
    · intro ⟨hmem, hp⟩
      refine ⟨hmem, ?_⟩
      rw [hi, hpi]
      simp only [Bool.and_eq_true, Bool.or_eq_true, Bool.not_eq_true',
        decide_eq_false_iff_not, decide_eq_true_eq, List.elem_iff]
      exact ⟨hs, hp⟩
  · intro q filt cards c hmiss hmem
    rw [searchByInitials, List.mem_filter] at hmem
    have hp := hmem.2
    rcases hmiss with h | h | h
    · rw [h] at hp
      simp at hp
    · rw [h] at hp
      cases hpi : c.progressive_initials with
      | none => rw [hpi] at hp; simp at hp
      | some l => rw [hpi] at hp; simp at hp
    · rw [h] at hp
      cases hi : c.initials with
      | none => rw [hi] at hp; simp at hp
      | some s => rw [hi] at hp; simp at hp

/-- Witness for claim C6: with the example store holding a migrated card
and a legacy card, the migrated card with initials b is a candidate for
query b, and the legacy card lacking the derived fields is skipped. -/
theorem searchByInitials_candidate_spec_witness :
    (exCard ∈ searchByInitials "b" none [exCard, exLegacyCard] ↔
      exCard ∈ [exCard, exLegacyCard] ∧ (("b".toList.isPrefixOf "b".toList ∨ "b" ∈ ["b"]) ∧
        passesSetFilter none exCard = true)) ∧
    exLegacyCard ∉ searchByInitials "b" none [exCard, exLegacyCard] :=
  ⟨searchByInitials_candidate_spec.1 "b" none [exCard, exLegacyCard] exCard "b" ["b"]
      (by decide) (by decide) (by decide),
   searchByInitials_candidate_spec.2 "b" none [exCard, exLegacyCard] exLegacyCard
      (Or.inl (by decide))⟩

theorem findCheckout_putCheckout_ne (i : Nat) (u : CheckoutRecord)
    (l : List CheckoutRecord) (hne : u.id ≠ i) :
    findCheckout i (putCheckout u l) = findCheckout i l := by
  induction l with
  | nil => rfl
  | cons x rest ih =>
    unfold putCheckout at ih ⊢
    rw [List.map_cons]
    by_cases hx : x.id = u.id
    · rw [if_pos hx, findCheckout, findCheckout,
        List.find?_cons_of_neg _ (by simp [hne]),
        List.find?_cons_of_neg _ (by simp [hx ▸ hne])]
      exact ih
    · rw [if_neg hx]
      by_cases hxi : x.id = i
      · rw [findCheckout, findCheckout, List.find?_cons_of_pos _ (by simp [hxi]),
          List.find?_cons_of_pos _ (by simp [hxi])]
      · rw [findCheckout, findCheckout, List.find?_cons_of_neg _ (by simp [hxi]),
          List.find?_cons_of_neg _ (by simp [hxi])]
        exact ih

theorem findCheckout_putCheckout_self (i : Nat) (u r : CheckoutRecord)
    (l : List CheckoutRecord) (hfind : findCheckout i l = some r) (hid : u.id = i) :
    findCheckout i (putCheckout u l) = some u := by
  induction l with
  | nil => cases hfind
  | cons x rest ih =>
    unfold putCheckout at ih ⊢
    rw [List.map_cons]
    by_cases hxi : x.id = i
    · rw [if_pos (by rw [hxi, hid]), findCheckout,
        List.find?_cons_of_pos _ (by simp [hid])]
    · rw [findCheckout] at hfind
      rw [List.find?_cons_of_neg _ (by simp [hxi])] at hfind
      rw [if_neg (by rw [hid]; exact hxi), findCheckout,
        List.find?_cons_of_neg _ (by simp [hxi])]
      exact ih hfind

theorem find_unique_of_nodup (l : List CheckoutRecord) (i : Nat) (r : CheckoutRecord)
    (hnd : (l.map (fun x => x.id)).Nodup) (hfind : findCheckout i l = some r) :
    ∀ x ∈ l, x.id = i → x = r := by
  intro x hx hxi
  have hr : r ∈ l := List.mem_of_find?_eq_some hfind
  have hri : r.id = i := by simpa using List.find?_some hfind
  exact List.inj_on_of_nodup_map hnd hx hr (hxi.trans hri.symm)

theorem checkinGo_spec (loc : Option String) (pos : Option Nat) (now : Nat)
    (ids : List Nat) : ∀ st : CheckoutState,
    (st.checkouts.map (fun r => r.id)).Nodup → ids.Nodup →
    (checkinGo loc pos now ids st).1.checkouts
      = st.checkouts.map (fun r =>
          if ids.contains r.id && r.status == "out" then checkinUpdate r loc pos now else r) ∧
    (checkinGo loc pos now ids st).1.nextId = st.nextId ∧
    (checkinGo loc pos now ids st).1.inventory = st.inventory ∧
    (checkinGo loc pos now ids st).2
      = (ids.filter (fun i => match findCheckout i st.checkouts with
          | some r => r.status == "out"
          | none => false)).length := by
  induction ids with
  | nil =>
    intro st _ _
    refine ⟨?_, rfl, rfl, rfl⟩
    simp [checkinGo]
  | cons i rest ih =>
    intro st hndst hndids
    rw [List.nodup_cons] at hndids
    obtain ⟨hnotin, hndrest⟩ := hndids
    rw [checkinGo]
    split
    next r hf =>
      have hri : r.id = i := by simpa using List.find?_some hf
      by_cases hout : r.status = "out"
      · rw [if_pos hout]
        dsimp only
        set u := checkinUpdate r loc pos now with hu
        have huid : u.id = i := by rw [hu]; exact hri
        have hucont : (List.contains rest u.id) = false := by
          rw [huid]
          rw [List.contains_eq_any_beq, List.any_eq_false]
          intro j hj
          simp only [beq_iff_eq]
          intro hc
          exact hnotin (hc ▸ hj)
        have hids_eq : (putCheckout u st.checkouts).map (fun r => r.id)
            = st.checkouts.map (fun r => r.id) := by
          unfold putCheckout
          rw [List.map_map]
          refine List.map_congr_left ?_
          intro x _
          by_cases hx : x.id = u.id
          · simp only [Function.comp_apply, if_pos hx]
            exact hx.symm
          · simp only [Function.comp_apply, if_neg hx]
        set st' : CheckoutState := { st with checkouts := putCheckout u st.checkouts } with hst'
        have hndst' : (st'.checkouts.map (fun r => r.id)).Nodup := by
          rw [hst']
          show ((putCheckout u st.checkouts).map (fun r => r.id)).Nodup
          rw [hids_eq]
          exact hndst
        obtain ⟨h1, h2, h3, h4⟩ := ih st' hndst' hndrest
        refine ⟨?_, h2, h3, ?_⟩
        · rw [h1]
          show (putCheckout u st.checkouts).map _ = _
          unfold putCheckout
          rw [List.map_map]
          refine List.map_congr_left ?_
          intro x hx
          simp only [Function.comp_apply]
          by_cases hxi : x.id = i
          · have hxr : x = r := find_unique_of_nodup st.checkouts i r hndst hf x hx hxi
            have hsel : (if x.id = u.id then u else x) = u := by
              rw [if_pos (show x.id = u.id by rw [hxi, huid])]
            rw [hsel]
            show (if (rest.contains u.id && (u.status == "out")) = true
                then checkinUpdate u loc pos now else u)
              = if ((i :: rest).contains x.id && (x.status == "out")) = true
                then checkinUpdate x loc pos now else x
            have hLcond : ¬ ((rest.contains u.id && (u.status == "out")) = true) := by
              rw [hucont]
              simp
            have hRcond : (((i :: rest).contains x.id && (x.status == "out")) = true) := by
              rw [List.contains_cons]
              have h1x : (x.id == i) = true := by simp [hxi]
              have h2x : (x.status == "out") = true := by rw [hxr]; simp [hout]
              rw [h1x, h2x]
              simp
            rw [if_neg hLcond, if_pos hRcond, hxr]
          · have hsel : (if x.id = u.id then u else x) = x := by
              rw [if_neg (show ¬ x.id = u.id by rw [huid]; exact hxi)]
            rw [hsel]
            show (if (rest.contains x.id && (x.status == "out")) = true
                then checkinUpdate x loc pos now else x)
              = if ((i :: rest).contains x.id && (x.status == "out")) = true
                then checkinUpdate x loc pos now else x
            have hcont : ((i :: rest).contains x.id) = (rest.contains x.id) := by
              rw [List.contains_cons]
              have hne : (x.id == i) = false := by
                simp only [beq_eq_false_iff_ne, ne_eq]
                exact hxi
              rw [hne, Bool.false_or]
            rw [hcont]
        · rw [h4, List.filter_cons, if_pos (by rw [hf]; simpa using hout)]
          have hfiltcongr : rest.filter (fun j => match findCheckout j st'.checkouts with
              | some r => r.status == "out"
              | none => false)
              = rest.filter (fun j => match findCheckout j st.checkouts with
              | some r => r.status == "out"
              | none => false) := by
            refine List.filter_congr ?_
            intro j hj
            have hji : u.id ≠ j := by
              rw [huid]
              intro hc
              exact hnotin (hc ▸ hj)
            have heq : findCheckout j st'.checkouts = findCheckout j st.checkouts := by
              rw [hst']
              exact findCheckout_putCheckout_ne j u st.checkouts hji
            rw [heq]
          rw [hfiltcongr]
          simp [Nat.add_comm]
      · rw [if_neg hout]
        obtain ⟨h1, h2, h3, h4⟩ := ih st hndst hndrest
        refine ⟨?_, h2, h3, ?_⟩
        · rw [h1]
          refine List.map_congr_left ?_
          intro x hx
          by_cases hxi : x.id = i
          · have hxr : x = r := find_unique_of_nodup st.checkouts i r hndst hf x hx hxi
            have hxout : (x.status == "out") = false := by
              rw [hxr]
              simpa using hout
            rw [show ((List.contains (i :: rest) x.id && x.status == "out")) = false by
                rw [hxout]; simp,
              show ((List.contains rest x.id && x.status == "out")) = false by
                rw [hxout]; simp]
          · have hcont : (List.contains (i :: rest) x.id) = (List.contains rest x.id) := by
              rw [List.contains_cons]
              have hne : (x.id == i) = false := by
                simp only [beq_eq_false_iff_ne, ne_eq]
                exact hxi
              rw [hne, Bool.false_or]
            rw [hcont]
        · rw [h4, List.filter_cons, if_neg (by rw [hf]; simpa using hout)]
    next hf =>
      have hnone : ∀ x ∈ st.checkouts, x.id ≠ i := by
        intro x hx
        have := List.find?_eq_none.mp hf x hx
        simpa using this
      obtain ⟨h1, h2, h3, h4⟩ := ih st hndst hndrest
      refine ⟨?_, h2, h3, ?_⟩
      · rw [h1]
        refine List.map_congr_left ?_
        intro x hx
        have hcont : (List.contains (i :: rest) x.id) = (List.contains rest x.id) := by
          rw [List.contains_cons]
          have hne : (x.id == i) = false := by
            simp only [beq_eq_false_iff_ne, ne_eq]
            exact hnone x hx
          rw [hne, Bool.false_or]
        rw [hcont]
      · rw [h4, List.filter_cons, if_neg (by rw [hf]; simp)]

/-- Total number of records counted across all groups. -/
def sumGroupCounts (gs : List CheckoutGroup) : Nat :=
  (gs.map (fun g => g.count)).sum

theorem addToGroups_sum (gs : List CheckoutGroup) (loc : String) (t : Nat) :
    sumGroupCounts (addToGroups gs loc t) = sumGroupCounts gs + 1 := by
  induction gs with
  | nil => rfl
  | cons g rest ih =>
    rw [addToGroups]
    by_cases h : g.location = loc
    · rw [if_pos h]
      simp [sumGroupCounts, Nat.add_assoc, Nat.add_comm, Nat.add_left_comm]
    · rw [if_neg h]
      simp only [sumGroupCounts, List.map_cons, List.sum_cons] at ih ⊢
      rw [ih]
      omega

theorem getCheckoutGroups_sum (st : CheckoutState) :
    sumGroupCounts (getCheckoutGroups st)
      = (st.checkouts.filter (fun r => r.status = "out")).length := by
  rw [getCheckoutGroups]
  generalize (st.checkouts.filter (fun r => r.status = "out")) = l
  suffices h : ∀ gs, sumGroupCounts
      (l.foldl (fun gs r => addToGroups gs (effLocation r) r.checked_out_at) gs)
      = sumGroupCounts gs + l.length by
    simpa [sumGroupCounts] using h []
  induction l with
  | nil => intro gs; simp
  | cons r rest ih =>
    intro gs
    rw [List.foldl_cons, ih, addToGroups_sum, List.length_cons]
    omega

theorem checkin_single_noop (loc : Option String) (pos : Option Nat) (now : Nat)
    (i : Nat) (st : CheckoutState)
    (hno : ∀ r, findCheckout i st.checkouts = some r → r.status ≠ "out") :
    checkinGo loc pos now [i] st = (st, 0) := by
  rw [checkinGo]
  split
  next r hf =>
    rw [if_neg (hno r hf)]
    rfl
  next hf => rfl

/-- Claim C2 is false as stated: checking in the open record with a
supplied return position of zero flips the record to status in but does
not record the return position, because the source tests the position for
JS truthiness and zero is falsy. -/
theorem checkinCards_claimC2_counterexample :
    (checkinCards [1] (some "shelf") (some 0) 99 exChkSt2).1.checkouts.map
        (fun r => (r.status, r.return_location, r.return_position))
      = [("in", some "shelf", none)] ∧
    ((none : Option Nat) ≠ some 0) := by
  exact ⟨by decide, by decide⟩

/-- Claim C2, amended: a batch check-in over distinct ids flips exactly
the ids whose record is out to status in with the check-in time stamped,
records the return location when supplied non-empty and the return
position when supplied non-zero (the source tests both for JS truthiness),
counts exactly the flipped ids, leaves the rest of the state alone; a
second check-in of the same id changes nothing and returns zero; and the
open-group listing counts only status-out records, so a checked-in record
no longer appears in it. -/
theorem checkinCards_spec :
    (∀ (ids : List Nat) (loc : Option String) (pos : Option Nat) (now : Nat)
       (st : CheckoutState),
       (st.checkouts.map (fun r => r.id)).Nodup → ids.Nodup →
       (checkinCards ids loc pos now st).1.checkouts
         = st.checkouts.map (fun r =>
             if ids.contains r.id && r.status == "out" then checkinUpdate r loc pos now else r) ∧
       (checkinCards ids loc pos now st).1.nextId = st.nextId ∧
       (checkinCards ids loc pos now st).1.inventory = st.inventory ∧
       (checkinCards ids loc pos now st).2
         = (ids.filter (fun i => match findCheckout i st.checkouts with
             | some r => r.status == "out"
             | none => false)).length) ∧
    (∀ (i : Nat) (loc : Option String) (pos : Option Nat) (now : Nat)
       (loc' : Option String) (pos' : Option Nat) (now' : Nat) (st : CheckoutState),
       checkinCards [i] loc' pos' now' (checkinCards [i] loc pos now st).1
         = ((checkinCards [i] loc pos now st).1, 0)) ∧
    (∀ st : CheckoutState, sumGroupCounts (getCheckoutGroups st)
       = (st.checkouts.filter (fun r => r.status = "out")).length) := by
  refine ⟨fun ids loc pos now st hnd1 hnd2 => checkinGo_spec loc pos now ids st hnd1 hnd2,
    ?_, getCheckoutGroups_sum⟩
  intro i loc pos now loc' pos' now' st
  apply checkin_single_noop
  intro r' hr'
  cases hf : findCheckout i st.checkouts with
  | none =>
    have hst1 : (checkinCards [i] loc pos now st).1 = st := by
      show (checkinGo loc pos now [i] st).1 = st
      simp [checkinGo, hf]
    rw [hst1, hf] at hr'
    cases hr'
  | some r =>
    by_cases hout : r.status = "out"
    · have hri : r.id = i := by simpa using List.find?_some hf
      have hst1 : (checkinCards [i] loc pos now st).1.checkouts
          = putCheckout (checkinUpdate r loc pos now) st.checkouts := by
        show (checkinGo loc pos now [i] st).1.checkouts = _
        simp [checkinGo, hf, hout]
      rw [hst1] at hr'
      have := findCheckout_putCheckout_self i (checkinUpdate r loc pos now) r
        st.checkouts hf hri
      rw [this] at hr'
      have hr'u : r' = checkinUpdate r loc pos now := by
        injection hr' with h
        exact h.symm
      rw [hr'u]
      show ("in" : String) ≠ "out"
      decide
    · have hst1 : (checkinCards [i] loc pos now st).1 = st := by
        show (checkinGo loc pos now [i] st).1 = st
        simp [checkinGo, hf, hout]
      rw [hst1, hf] at hr'
      have hr'r : r' = r := by
        injection hr' with h
        exact h.symm
      rw [hr'r]
      exact hout

/-- Witness for the amended claim C2 at the example ledger: checking in
the single open record flips it to in, records the non-empty location and
non-zero position, counts one update, and the group listing total equals
the number of still-open records. -/
theorem checkinCards_spec_witness :
    ((checkinCards [1] (some "shelf") (some 4) 99 exChkSt2).1.checkouts
      = exChkSt2.checkouts.map (fun r =>
          if [1].contains r.id && r.status == "out"
          then checkinUpdate r (some "shelf") (some 4) 99 else r) ∧
     (checkinCards [1] (some "shelf") (some 4) 99 exChkSt2).1.nextId = exChkSt2.nextId ∧
     (checkinCards [1] (some "shelf") (some 4) 99 exChkSt2).1.inventory = exChkSt2.inventory ∧
     (checkinCards [1] (some "shelf") (some 4) 99 exChkSt2).2
       = ([1].filter (fun i => match findCheckout i exChkSt2.checkouts with
           | some r => r.status == "out"
           | none => false)).length) ∧
    checkinCards [2] none none 100
        (checkinCards [2] (some "shelf") (some 4) 99 exChkSt2).1
      = ((checkinCards [2] (some "shelf") (some 4) 99 exChkSt2).1, 0) ∧
    sumGroupCounts (getCheckoutGroups exChkSt2)
      = (exChkSt2.checkouts.filter (fun r => r.status = "out")).length :=
  ⟨checkinCards_spec.1 [1] (some "shelf") (some 4) 99 exChkSt2 (by decide) (by decide),
   checkinCards_spec.2.1 2 (some "shelf") (some 4) 99 none none 100 exChkSt2,
   checkinCards_spec.2.2 exChkSt2⟩

theorem findInv_setInvNote_ne (k a : Nat) (v : String) (l : List InventoryRecord)
    (h : k ≠ a) : findInv k (setInvNote a v l) = findInv k l := by
  induction l with
  | nil => rfl
  | cons x rest ih =>
    unfold setInvNote at ih ⊢
    rw [List.map_cons]
    by_cases hx : x.echo_inventory_id = a
    · rw [if_pos hx, findInv, findInv,
        List.find?_cons_of_neg _ (by simp; rw [hx]; exact fun hc => h hc.symm),
        List.find?_cons_of_neg _ (by simp; rw [hx]; exact fun hc => h hc.symm)]
      exact ih
    · rw [if_neg hx]
      by_cases hxk : x.echo_inventory_id = k
      · rw [findInv, findInv, List.find?_cons_of_pos _ (by simp [hxk]),
          List.find?_cons_of_pos _ (by simp [hxk])]
      · rw [findInv, findInv, List.find?_cons_of_neg _ (by simp [hxk]),
          List.find?_cons_of_neg _ (by simp [hxk])]
        exact ih

theorem findInv_setInvNote_self (a : Nat) (v : String) (l : List InventoryRecord)
    (r : InventoryRecord) (hfind : findInv a l = some r) :
    findInv a (setInvNote a v l) = some { r with note := some v } := by
  induction l with
  | nil => cases hfind
  | cons x rest ih =>
    unfold setInvNote at ih ⊢
    rw [List.map_cons]
    by_cases hx : x.echo_inventory_id = a
    · rw [findInv, List.find?_cons_of_pos _ (by simp [hx])] at hfind
      injection hfind with hxr
      rw [if_pos hx, findInv, List.find?_cons_of_pos _ (by simp [hx]), hxr]
    · rw [findInv, List.find?_cons_of_neg _ (by simp [hx])] at hfind
      rw [if_neg hx, findInv, List.find?_cons_of_neg _ (by simp [hx])]
      exact ih hfind

theorem findInv_checkoutStep (tl : String) (off now b i : Nat) (st : CheckoutState)
    (a : Nat) (hab : a ≠ b) :
    findInv a (checkoutStep tl off now b i st).inventory = findInv a st.inventory := by
  unfold checkoutStep
  dsimp only
  cases hm : findInv b st.inventory with
  | none => rfl
  | some inv0 => exact findInv_setInvNote_ne a b _ st.inventory hab

theorem findInv_checkoutGo_stable (tl : String) (off now : Nat) (ids : List Nat) :
    ∀ (i : Nat) (st : CheckoutState) (k : Nat), k ∉ ids →
    findInv k (checkoutGo tl off now ids i st).1.inventory = findInv k st.inventory := by
  induction ids with
  | nil => intro i st k _; rfl
  | cons b rest ih =>
    intro i st k hk
    rw [List.mem_cons] at hk
    push_neg at hk
    rw [checkoutGo]
    dsimp only
    rw [ih (i + 1) _ k hk.2]
    exact findInv_checkoutStep tl off now b i st k hk.1

theorem checkoutGo_spec (tl : String) (off now : Nat) (ids : List Nat) :
    ∀ (k : Nat) (st : CheckoutState), ids.Nodup →
    (checkoutGo tl off now ids k st).2.length = ids.length ∧
    (∀ j a, ids[j]? = some a →
      ∃ r, (checkoutGo tl off now ids k st).2[j]? = some r ∧
        r.status = "out" ∧
        r.target_position = off + (k + j) ∧
        r.echo_inventory_id = a ∧
        r.source_location = (parseNoteLocation (effNote (findInv a st.inventory))).1 ∧
        r.source_position = (parseNoteLocation (effNote (findInv a st.inventory))).2 ∧
        (∀ inv0, findInv a st.inventory = some inv0 →
          findInv a (checkoutGo tl off now ids k st).1.inventory
            = some { inv0 with note := some (tl ++ "p" ++ jsStringOfNat (off + (k + j))) })) := by
  induction ids with
  | nil =>
    intro k st _
    refine ⟨rfl, ?_⟩
    intro j a hj
    simp at hj
  | cons b rest ih =>
    intro k st hnd
    rw [List.nodup_cons] at hnd
    obtain ⟨hbnotin, hndrest⟩ := hnd
    rw [checkoutGo]
    dsimp only
    constructor
    · rw [List.length_cons, (ih (k + 1) (checkoutStep tl off now b k st) hndrest).1,
        List.length_cons]
    · intro j a hj
      cases j with
      | zero =>
        rw [List.getElem?_cons_zero] at hj
        injection hj with hba
        subst hba
        refine ⟨checkoutNewRec tl off now b k st, by rw [List.getElem?_cons_zero], rfl,
          by show off + k = off + (k + 0); omega, rfl, rfl, rfl, ?_⟩
        intro inv0 hinv0
        have hstable : findInv b (checkoutGo tl off now rest (k + 1)
            (checkoutStep tl off now b k st)).1.inventory
            = findInv b (checkoutStep tl off now b k st).inventory :=
          findInv_checkoutGo_stable tl off now rest (k + 1) _ b hbnotin
        rw [hstable]
        unfold checkoutStep
        dsimp only
        rw [hinv0]
        have := findInv_setInvNote_self b (tl ++ "p" ++ jsStringOfNat (off + k))
          st.inventory inv0 hinv0
        rw [this]
        have harith : off + k = off + (k + 0) := by omega
        rw [harith]
      | succ j' =>
        rw [List.getElem?_cons_succ] at hj
        have hamem : a ∈ rest := List.getElem?_mem hj
        have hab : a ≠ b := fun hc => hbnotin (hc ▸ hamem)
        have hfinv : findInv a (checkoutStep tl off now b k st).inventory
            = findInv a st.inventory := findInv_checkoutStep tl off now b k st a hab
        obtain ⟨r, hr2, hstat, hpos, hid, hsl, hsp, hnote⟩ :=
          (ih (k + 1) (checkoutStep tl off now b k st) hndrest).2 j' a hj
        refine ⟨r, by rw [List.getElem?_cons_succ]; exact hr2, hstat, ?_, hid, ?_, ?_, ?_⟩
        · rw [hpos]
          omega
        · rw [hsl, hfinv]
        · rw [hsp, hfinv]
        · intro inv0 hinv0
          have hinv0' : findInv a (checkoutStep tl off now b k st).inventory = some inv0 := by
            rw [hfinv]
            exact hinv0
          have := hnote inv0 hinv0'
          rw [this]
          have harith : off + (k + 1 + j') = off + (k + (j' + 1)) := by omega
          rw [harith]

/-- Claim C1 is false as stated: in the batch with the same id twice, the
second pass parses the note already rewritten by the first pass, so its
source is the target location of the first pass, not the location parsed
from the note as it was before the operation. -/
theorem checkoutCards_claimC1_counterexample :
    ((checkoutCards [1, 1] "deck1" 1 17 exChkSt).2.map
        (fun r => (r.source_location, r.source_position)))
      = [(some "box1", some 5), (some "deck1", some 1)] ∧
    parseNoteLocation (effNote (findInv 1 exChkSt.inventory)) = (some "box1", some 5) ∧
    ((some "deck1" : Option String), (some 1 : Option Nat)) ≠ (some "box1", some 5) := by
  exact ⟨by decide, by decide, by decide⟩

/-- Claim C1, amended to batches of pairwise-distinct ids: for each id at
batch index i a checkout record is created with status out, target
position the offset plus i, and source location and position parsed from
the inventory note as it was before the operation; and when the inventory
record exists its note afterwards reads the target location, the letter p,
and the target position. -/
theorem checkoutCards_spec (ids : List Nat) (tl : String) (off now : Nat)
    (st : CheckoutState) (hnd : ids.Nodup) :
    (checkoutCards ids tl off now st).2.length = ids.length ∧
    (∀ j a, ids[j]? = some a →
      ∃ r, (checkoutCards ids tl off now st).2[j]? = some r ∧
        r.status = "out" ∧
        r.target_position = off + j ∧
        r.echo_inventory_id = a ∧
        r.source_location = (parseNoteLocation (effNote (findInv a st.inventory))).1 ∧
        r.source_position = (parseNoteLocation (effNote (findInv a st.inventory))).2 ∧
        (∀ inv0, findInv a st.inventory = some inv0 →
          findInv a (checkoutCards ids tl off now st).1.inventory
            = some { inv0 with note := some (tl ++ "p" ++ jsStringOfNat (off + j)) })) := by
  obtain ⟨h1, h2⟩ := checkoutGo_spec tl off now ids 0 st hnd
  refine ⟨h1, ?_⟩
  intro j a hj
  obtain ⟨r, hr⟩ := h2 j a hj
  have harith : off + (0 + j) = off + j := by omega
  rw [harith] at hr
  exact ⟨r, hr⟩

/-- Witness for the amended claim C1 at the spec's own example: checking
out two distinct ids to deck1 from offset one creates two out records at
positions one and two, sourced from the old notes, and rewrites the notes
to deck1 position one and two. -/
theorem checkoutCards_spec_witness :
    (checkoutCards [1, 2] "deck1" 1 17 exChkSt).2.length = [1, 2].length ∧
    (∀ j a, [1, 2][j]? = some a →
      ∃ r, (checkoutCards [1, 2] "deck1" 1 17 exChkSt).2[j]? = some r ∧
        r.status = "out" ∧
        r.target_position = 1 + j ∧
        r.echo_inventory_id = a ∧
        r.source_location = (parseNoteLocation (effNote (findInv a exChkSt.inventory))).1 ∧
        r.source_position = (parseNoteLocation (effNote (findInv a exChkSt.inventory))).2 ∧
        (∀ inv0, findInv a exChkSt.inventory = some inv0 →
          findInv a (checkoutCards [1, 2] "deck1" 1 17 exChkSt).1.inventory
            = some { inv0 with note := some ("deck1" ++ "p" ++ jsStringOfNat (1 + j)) })) :=
  checkoutCards_spec [1, 2] "deck1" 1 17 exChkSt (by decide)

end ScrollRack
